import Mathlib

/-!
Shallow embedding of the auto-resizing Game-of-Life engine in
`chargepoint_demo.py`, together with proofs checking the natural-language
specification against it.

Conventions of the embedding:
* a `GridCell` is its boolean alive-state (`GridCell.set` is never called in
  the program, so cell objects behave as values);
* Python `int` is `Int`; list indices resolve with Python semantics
  (`pyIdx`): a negative index within `[-len, -1]` wraps to the end,
  anything else is out of range;
* Python `//` (floor division) is `Int.fdiv`;
* sites where the Python program would raise `IndexError` are modelled as
  the identity / a default and are guarded by the well-formedness
  hypotheses of the theorems, which mirror the conditions under which the
  program actually runs those lines.
-/

namespace ChargepointDemo

/-- Python index resolution for a list of length `n`: `0 ≤ i < n` is the
index itself, `-n ≤ i < 0` wraps to `n + i`, anything else raises
(modelled as `none`). -/
def pyIdx (n : Nat) (i : Int) : Option Nat :=
  if 0 ≤ i ∧ i < (n : Int) then some i.toNat
  else if -(n : Int) ≤ i ∧ i < 0 then some (i + n).toNat
  else none

/-- Python `list.insert(i, a)` for a non-negative index: inserts before
position `i`, clamping to the end when `i ≥ len`. -/
def pyInsert (a : α) : Nat → List α → List α
  | _, [] => [a]
  | 0, b :: l => a :: b :: l
  | i + 1, b :: l => b :: pyInsert a i l

/-- Python `list.pop(i)` for a non-negative in-range index (out of range
raises in Python; the call sites of the program are in range, and the
out-of-range case is modelled as the identity). -/
def pyPop : Nat → List α → List α
  | _, [] => []
  | 0, _ :: l => l
  | i + 1, b :: l => b :: pyPop i l

/-- GridCell.fromChar: dead for a dot or a space, alive for anything else. -/
def fromChar (ch : Char) : Bool :=
  ch ≠ '.' && ch ≠ ' '

/-- GridPoint: a (row, col) location carrying an alive/dead cell state. -/
structure GridPoint where
  row : Int
  col : Int
  alive : Bool
deriving DecidableEq, Repr

/-- Python `str.strip("/")`: remove every leading and trailing `/`. -/
def stripSlash (s : List Char) : List Char :=
  ((s.dropWhile (· = '/')).reverse.dropWhile (· = '/')).reverse

/-- Python `str.split("/")` on a single-character separator: the empty
string yields `[""]`, and separators delimit (possibly empty) segments. -/
def splitSlash : List Char → List (List Char)
  | [] => [[]]
  | ch :: cs =>
    if ch = '/' then [] :: splitSlash cs
    else
      match splitSlash cs with
      | [] => [[ch]]
      | seg :: segs => (ch :: seg) :: segs

/-- One row of Pattern.__init__: a GridPoint for every character of the
row segment (dead characters included), at its character index. -/
def rowPoints (r : Nat) (cs : List Char) : List GridPoint :=
  (List.range cs.length).map
    (fun c => { row := (r : Int), col := Int.ofNat c, alive := fromChar (cs.getD c ' ') })

/-- Pattern.__init__: strip the surrounding slashes, split into row
segments, and produce one point per character. -/
def patternPoints (pattern : String) : List GridPoint :=
  let rows := splitSlash (stripSlash pattern.data)
  (List.range rows.length).flatMap (fun r => rowPoints r (rows.getD r []))

/-- Pattern.getExtent: fold of `max` over the rows and columns of every
point of the pattern, starting from (0, 0). -/
def patternExtent (points : List GridPoint) : Int × Int :=
  points.foldl (fun acc p => (max acc.1 p.row, max acc.2 p.col)) (0, 0)

/-- The grid: an array of rows of cells, the cached extent, and the four
margins in the order north, east, south, west of the Python `margins`
list. -/
structure Grid where
  rows : List (List Bool)
  extentR : Nat
  extentC : Nat
  marginN : Int
  marginE : Int
  marginS : Int
  marginW : Int
deriving DecidableEq, Repr

/-- Cell state at a non-negative in-range index pair (`self.rows[r][c]`
at the call sites where both indices are drawn from `range`). -/
def cellAt (rows : List (List Bool)) (r c : Nat) : Bool :=
  (rows.getD r []).getD c false

/-- Grid.isCellAlive. Its callers always pass indices drawn from
`range(extent)`, so plain in-range lookup is faithful. -/
def Grid.isCellAlive (g : Grid) (r c : Nat) : Bool :=
  cellAt g.rows r c

/-- Grid.getCell: `self.rows[r][c]` under `try/except`. A resolvable index
(including Python negative-index wraparound) returns that cell; an
unresolvable one raises and the handler returns a dead cell. -/
def Grid.getCell (g : Grid) (r c : Int) : Bool :=
  match pyIdx g.rows.length r with
  | none => false
  | some rn =>
    let row := g.rows.getD rn []
    match pyIdx row.length c with
    | none => false
    | some cn => row.getD cn false

/-- Grid.directions: the eight Moore-neighborhood offsets. -/
def directions : List (Int × Int) :=
  [(-1, -1), (-1, 0), (-1, 1), (0, -1), (0, 1), (1, -1), (1, 0), (1, 1)]

/-- Grid._countNeighborsCell: how many of the eight neighbors are alive,
through `getCell`. -/
def Grid.countNeighborsCell (g : Grid) (r0 c0 : Nat) : Nat :=
  (directions.filter (fun s => g.getCell (s.1 + (r0 : Int)) (s.2 + (c0 : Int)))).length

/-- Grid.countNeighborsForRow: the neighbor counts of every column of one
row. -/
def Grid.countNeighborsForRow (g : Grid) (row : Nat) : List Nat :=
  (List.range g.extentC).map (fun col => g.countNeighborsCell row col)

/-- Grid.__init__, returning `Except` for the raised `BaseException`s. -/
def Grid.init (gridType : String) (extent : Int × Int)
    (margins : Int × Int × Int × Int) : Except String Grid :=
  if gridType ≠ "inf" then .error "bad grid type, only inf is allowed."
  else if margins.1 < 1 ∨ margins.2.1 < 1 ∨ margins.2.2.1 < 1 ∨ margins.2.2.2 < 1 then
    .error "bad grid margins, minimum 1 on each side needed!"
  else if extent.1 < margins.1 + margins.2.2.1 ∨ extent.2 < margins.2.1 + margins.2.2.2 then
    .error "bad grid extents, must be larger than margins!!"
  else .ok
    { rows := List.replicate extent.1.toNat (List.replicate extent.2.toNat false)
      extentR := extent.1.toNat
      extentC := extent.2.toNat
      marginN := margins.1
      marginE := margins.2.1
      marginS := margins.2.2.1
      marginW := margins.2.2.2 }

/-- Grid._maintainMargin.__testRowIsDead. -/
def Grid.rowIsDead (g : Grid) (r : Nat) : Bool :=
  ((List.range g.extentC).filter (fun c => g.isCellAlive r c)).isEmpty

/-- Grid._maintainMargin.__testColumnIsDead. -/
def Grid.colIsDead (g : Grid) (c : Nat) : Bool :=
  ((List.range g.extentR).filter (fun r => g.isCellAlive r c)).isEmpty

/-- The inward scan from the low edge shared by the `top` and `left`
loops of __computeDeficits: starting at 0, advance past dead lines; the
result is the first non-dead index, or `n` when every line is dead. -/
def scanFirstLive (dead : Nat → Bool) (n : Nat) : Nat :=
  match (List.range n).find? (fun i => ! dead i) with
  | some i => i
  | none => n

/-- The inward scan from the high edge shared by the `bottom` and
`right` loops of __computeDeficits: starting at `n - 1` (as a Python
int, so `-1` when `n = 0`), retreat while the line is dead and the index
stays above `first`; the result is the largest index below `n` that is
`≤ first` or non-dead. -/
def scanLastLive (dead : Nat → Bool) (first : Nat) (n : Nat) : Int :=
  match (List.range n).reverse.find? (fun i => decide (i ≤ first) || ! dead i) with
  | some i => (i : Int)
  | none => (n : Int) - 1

/-- The `top` scan of __computeDeficits. -/
def Grid.findTop (g : Grid) : Nat :=
  scanFirstLive g.rowIsDead g.extentR

/-- The `bottom` scan of __computeDeficits. -/
def Grid.findBottom (g : Grid) (top : Nat) : Int :=
  scanLastLive g.rowIsDead top g.extentR

/-- The `left` scan of __computeDeficits. -/
def Grid.findLeft (g : Grid) : Nat :=
  scanFirstLive g.colIsDead g.extentC

/-- The `right` scan of __computeDeficits. -/
def Grid.findRight (g : Grid) (left : Nat) : Int :=
  scanLastLive g.colIsDead left g.extentC

/-- Grid._maintainMargin.__computeDeficits: margin minus actual dead
distance, for each of the four sides (N, E, S, W). -/
def Grid.deficits (g : Grid) : Int × Int × Int × Int :=
  let top := g.findTop
  let bottom := g.findBottom top
  let left := g.findLeft
  let right := g.findRight left
  ( g.marginN - (top : Int)
  , g.marginE - ((g.extentC : Int) - right - 1)
  , g.marginS - ((g.extentR : Int) - bottom - 1)
  , g.marginW - (left : Int) )

/-- The north loop of _maintainMargin: `abs(deficit)` iterations, each
inserting a fresh dead row at index 0 when the deficit is positive, or
popping row 0 when it is negative and `trim_now` holds. -/
def phaseNorth (trimNow : Bool) (d : Int) (eC : Nat)
    (rows : List (List Bool)) : List (List Bool) :=
  if 0 < d then (fun rs => pyInsert (List.replicate eC false) 0 rs)^[d.toNat] rows
  else if trimNow then (fun rs => pyPop 0 rs)^[(-d).toNat] rows
  else rows

/-- The south loop of _maintainMargin: insert at `len(rows)` (append) when
growing, pop the last row when trimming. -/
def phaseSouth (trimNow : Bool) (d : Int) (eC : Nat)
    (rows : List (List Bool)) : List (List Bool) :=
  if 0 < d then (fun rs => pyInsert (List.replicate eC false) rs.length rs)^[d.toNat] rows
  else if trimNow then (fun rs => pyPop (rs.length - 1) rs)^[(-d).toNat] rows
  else rows

/-- The west loop of _maintainMargin: __addAColumn(0) / __trimAColumn(0)
iterate over `range(self.extent[0])`, and `extent[0]` has just been reset
to `len(self.rows)`, so each pass touches every row. -/
def phaseWest (trimNow : Bool) (d : Int)
    (rows : List (List Bool)) : List (List Bool) :=
  if 0 < d then (fun rs => rs.map (fun row => pyInsert false 0 row))^[d.toNat] rows
  else if trimNow then (fun rs => rs.map (fun row => pyPop 0 row))^[(-d).toNat] rows
  else rows

/-- The east loop of _maintainMargin: each iteration recomputes
`len(self.rows[0])` and appends / pops a column there. -/
def phaseEast (trimNow : Bool) (d : Int)
    (rows : List (List Bool)) : List (List Bool) :=
  if 0 < d then
    (fun rs => rs.map (fun row => pyInsert false (rs.headD []).length row))^[d.toNat] rows
  else if trimNow then
    (fun rs => rs.map (fun row => pyPop ((rs.headD []).length - 1) row))^[(-d).toNat] rows
  else rows

/-- Grid._maintainMargin: compute the four deficits against the current
grid, then run the north, south, west, east adjustment loops in order,
refreshing the cached extent from the array dimensions as the program
does (`extent[0] = len(rows)` after the row loops, `extent[1] =
len(rows[0])` after the column loops). -/
def Grid.maintainMargin (g : Grid) (trimNow : Bool) : Grid :=
  let d := g.deficits
  let rows2 := phaseSouth trimNow d.2.2.1 g.extentC (phaseNorth trimNow d.1 g.extentC g.rows)
  let rows4 := phaseEast trimNow d.2.1 (phaseWest trimNow d.2.2.2 rows2)
  { g with rows := rows4, extentR := rows4.length, extentC := (rows4.headD []).length }

/-- One assignment `self.rows[x.row][x.col] = x.state` of
Grid.applyPoints, with Python index resolution. An unresolvable index
raises IndexError in Python; callers only supply resolvable points
(the theorems hypothesize it), and that case is modelled as the
identity. -/
def setPoint (rows : List (List Bool)) (p : GridPoint) : List (List Bool) :=
  match pyIdx rows.length p.row with
  | none => rows
  | some rn =>
    match pyIdx (rows.getD rn []).length p.col with
    | none => rows
    | some cn => rows.set rn ((rows.getD rn []).set cn p.alive)

/-- Grid.applyPoints: write every point into the grid, then maintain the
margins. -/
def Grid.applyPoints (g : Grid) (points : List GridPoint) (trimNow : Bool) : Grid :=
  Grid.maintainMargin { g with rows := points.foldl setPoint g.rows } trimNow

/-- The GameOfLife simulation state: its grid and tick counter. -/
structure Game where
  g : Grid
  tickCount : Nat
deriving DecidableEq, Repr

/-- GameOfLife._determineTransitions: walk the columns of one row; a live
cell with neighbor count outside [2,3] yields a death point, otherwise a
dead cell with count exactly 3 yields a birth point. -/
def determineTransitions (g : Grid) (rownum : Nat) (neighbors : List Nat) :
    List GridPoint :=
  (List.range neighbors.length).foldl
    (fun census colnum =>
      let ncount := neighbors.getD colnum 0
      if ¬ (2 ≤ ncount ∧ ncount ≤ 3) ∧ g.isCellAlive rownum colnum then
        census ++ [{ row := (rownum : Int), col := (colnum : Int), alive := false }]
      else if ncount = 3 ∧ ¬ g.isCellAlive rownum colnum then
        census ++ [{ row := (rownum : Int), col := (colnum : Int), alive := true }]
      else census)
    []

/-- GameOfLife.tick: collect the transitions of every row against the
still-unmutated grid (`transitions += row_census` only when the census is
non-empty), apply them in one applyPoints call whose trim flag is the
Python truthiness of `tickCount and tickCount % 5 == 0`, and increment
the tick counter. -/
def tick (s : Game) : Game :=
  let transitions := (List.range s.g.extentR).foldl
    (fun acc rownum =>
      let rowCensus := determineTransitions s.g rownum (s.g.countNeighborsForRow rownum)
      if rowCensus.isEmpty then acc else acc ++ rowCensus)
    []
  { g := s.g.applyPoints transitions ((s.tickCount != 0) && (s.tickCount % 5 == 0))
    tickCount := s.tickCount + 1 }

/-! ### Basic facts about the Python list primitives -/

/-- A fully dead row of width `w`. -/
def deadRow (w : Nat) : List Bool := List.replicate w false

/-- Well-formedness: the cached extent equals the actual array
dimensions (the grid's core invariant per the data model). -/
def Grid.wf (g : Grid) : Prop :=
  g.rows.length = g.extentR ∧ ∀ row ∈ g.rows, row.length = g.extentC

/-- Margins are at least 1, as Grid construction enforces. -/
def Grid.okMargins (g : Grid) : Prop :=
  1 ≤ g.marginN ∧ 1 ≤ g.marginE ∧ 1 ≤ g.marginS ∧ 1 ≤ g.marginW

theorem pyInsert_zero (a : α) (l : List α) : pyInsert a 0 l = a :: l := by
  cases l <;> rfl

theorem pyInsert_length (a : α) (l : List α) : pyInsert a l.length l = l ++ [a] := by
  induction l with
  | nil => rfl
  | cons b l ih => simpa [pyInsert, List.length_cons] using ih

theorem pyPop_zero (l : List α) : pyPop 0 l = l.tail := by
  cases l <;> rfl

theorem pyPop_last (l : List α) : pyPop (l.length - 1) l = l.dropLast := by
  induction l with
  | nil => rfl
  | cons b l ih =>
    cases l with
    | nil => rfl
    | cons c l2 => simpa [pyPop, List.length_cons] using ih

theorem iterate_pyInsert_zero (x : α) (k : Nat) (l : List α) :
    (fun rs => pyInsert x 0 rs)^[k] l = List.replicate k x ++ l := by
  induction k with
  | zero => rfl
  | succ k ih =>
    rw [Function.iterate_succ_apply' (fun rs => pyInsert x 0 rs) k l, ih, pyInsert_zero,
      List.replicate_succ]
    rfl

theorem iterate_pyPop_zero (k : Nat) (l : List α) :
    (fun rs => pyPop 0 rs)^[k] l = l.drop k := by
  induction k with
  | zero => rfl
  | succ k ih =>
    rw [Function.iterate_succ_apply' (fun rs => pyPop 0 rs) k l, ih, pyPop_zero,
      ← List.drop_one, List.drop_drop]

theorem iterate_pyInsert_length (x : α) (k : Nat) (l : List α) :
    (fun rs => pyInsert x rs.length rs)^[k] l = l ++ List.replicate k x := by
  induction k with
  | zero => simp
  | succ k ih =>
    rw [Function.iterate_succ_apply' (fun rs => pyInsert x rs.length rs) k l, ih,
      pyInsert_length, List.replicate_succ' k x, List.append_assoc]

theorem iterate_pyPop_last (k : Nat) (l : List α) :
    (fun rs => pyPop (rs.length - 1) rs)^[k] l = l.take (l.length - k) := by
  induction k with
  | zero => simp
  | succ k ih =>
    rw [Function.iterate_succ_apply' (fun rs => pyPop (rs.length - 1) rs) k l, ih,
      pyPop_last, List.dropLast_eq_take, List.length_take, List.take_take]
    congr 1
    omega

/-! ### Closed forms of the four margin-maintenance phases -/

theorem phaseNorth_eq (trimNow : Bool) (d : Int) (eC : Nat) (rows : List (List Bool)) :
    phaseNorth trimNow d eC rows =
      if 0 < d then List.replicate d.toNat (deadRow eC) ++ rows
      else if trimNow then rows.drop (-d).toNat
      else rows := by
  unfold phaseNorth
  split
  · exact iterate_pyInsert_zero _ _ _
  · split
    · exact iterate_pyPop_zero _ _
    · rfl

theorem phaseSouth_eq (trimNow : Bool) (d : Int) (eC : Nat) (rows : List (List Bool)) :
    phaseSouth trimNow d eC rows =
      if 0 < d then rows ++ List.replicate d.toNat (deadRow eC)
      else if trimNow then rows.take (rows.length - (-d).toNat)
      else rows := by
  unfold phaseSouth
  split
  · exact iterate_pyInsert_length _ _ _
  · split
    · exact iterate_pyPop_last _ _
    · rfl

theorem iterate_list_map (f : α → α) (k : Nat) (l : List α) :
    (fun rs : List α => rs.map f)^[k] l = l.map f^[k] := by
  induction k with
  | zero => simp
  | succ k ih =>
    rw [Function.iterate_succ_apply' (fun rs : List α => rs.map f) k l, ih,
      List.map_map]
    apply List.map_congr_left
    intro a _
    exact (Function.iterate_succ_apply' f k a).symm

theorem phaseWest_eq (trimNow : Bool) (d : Int) (rows : List (List Bool)) :
    phaseWest trimNow d rows =
      if 0 < d then rows.map (fun row => List.replicate d.toNat false ++ row)
      else if trimNow then rows.map (fun row => row.drop (-d).toNat)
      else rows := by
  unfold phaseWest
  split
  · rw [iterate_list_map]
    apply List.map_congr_left
    intro row _
    exact iterate_pyInsert_zero false d.toNat row
  · split
    · rw [iterate_list_map]
      apply List.map_congr_left
      intro row _
      exact iterate_pyPop_zero (-d).toNat row
    · rfl

theorem phaseEast_grow (k : Nat) (w : Nat) (rows : List (List Bool))
    (hrect : ∀ row ∈ rows, row.length = w) :
    (fun rs => rs.map (fun row => pyInsert false (rs.headD []).length row))^[k] rows =
      rows.map (fun row => row ++ List.replicate k false) := by
  induction k generalizing w rows with
  | zero => simp
  | succ k ih =>
    rw [Function.iterate_succ_apply]
    cases rows with
    | nil =>
      rw [List.map_nil]
      simpa using ih 0 [] (by simp)
    | cons r0 rest =>
      have hstep : (r0 :: rest).map
            (fun row => pyInsert false ((r0 :: rest).headD []).length row) =
          (r0 :: rest).map (fun row => row ++ [false]) := by
        apply List.map_congr_left
        intro row hrow
        have hl : row.length = w := hrect row hrow
        have h0 : r0.length = w := hrect r0 (by simp)
        simp only [List.headD_cons, h0, ← hl]
        exact pyInsert_length false row
      rw [hstep, ih (w + 1)]
      · rw [List.map_map]
        apply List.map_congr_left
        intro row _
        simp [List.replicate_succ, List.append_assoc]
      · intro row hrow
        rcases List.mem_map.mp hrow with ⟨row0, hrow0, rfl⟩
        simp [hrect row0 hrow0]

theorem phaseEast_trim (k : Nat) (w : Nat) (rows : List (List Bool))
    (hrect : ∀ row ∈ rows, row.length = w) :
    (fun rs => rs.map (fun row => pyPop ((rs.headD []).length - 1) row))^[k] rows =
      rows.map (fun row => row.take (w - k)) := by
  induction k generalizing w rows with
  | zero =>
    simp only [Function.iterate_zero, id_eq, Nat.sub_zero]
    conv_lhs => rw [(List.map_id rows).symm]
    apply List.map_congr_left
    intro row hrow
    simp only [id_eq]
    rw [← hrect row hrow, List.take_length]
  | succ k ih =>
    rw [Function.iterate_succ_apply]
    cases rows with
    | nil =>
      rw [List.map_nil]
      simpa using ih 0 [] (by simp)
    | cons r0 rest =>
      have hstep : (r0 :: rest).map
            (fun row => pyPop (((r0 :: rest).headD []).length - 1) row) =
          (r0 :: rest).map (fun row => row.take (w - 1)) := by
        apply List.map_congr_left
        intro row hrow
        have hl : row.length = w := hrect row hrow
        have h0 : r0.length = w := hrect r0 (by simp)
        simp only [List.headD_cons, h0, ← hl]
        rw [pyPop_last, List.dropLast_eq_take]
      rw [hstep, ih (w - 1)]
      · rw [List.map_map]
        apply List.map_congr_left
        intro row _
        simp only [Function.comp_apply, List.take_take]
        congr 1
        omega
      · intro row hrow
        rcases List.mem_map.mp hrow with ⟨row0, hrow0, rfl⟩
        simp [List.length_take, hrect row0 hrow0]

/-! ### Cell lookups through the structural row and column operations -/

theorem cellAt_eq_getElem (rows : List (List Bool)) (r c : Nat) :
    cellAt rows r c = ((rows[r]?.getD [])[c]?).getD false := by
  unfold cellAt
  rw [List.getD_eq_getElem?_getD, List.getD_eq_getElem?_getD]

theorem getD_replicate_false (k c : Nat) :
    (List.replicate k (false : Bool)).getD c false = false := by
  rw [List.getD_eq_getElem?_getD, List.getElem?_replicate]
  split <;> rfl

theorem getD_false_replicate_prepend (k : Nat) (row : List Bool) (c : Nat) :
    (List.replicate k false ++ row).getD c false =
      if c < k then false else row.getD (c - k) false := by
  simp only [List.getD_eq_getElem?_getD, List.getElem?_append, List.getElem?_replicate,
    List.length_replicate]
  split
  · next h => simp [h]
  · rfl

theorem getD_false_drop (k : Nat) (row : List Bool) (c : Nat) :
    (row.drop k).getD c false = row.getD (k + c) false := by
  simp only [List.getD_eq_getElem?_getD, List.getElem?_drop]

theorem getD_false_append_replicate (k : Nat) (row : List Bool) (c : Nat) :
    (row ++ List.replicate k false).getD c false = row.getD c false := by
  simp only [List.getD_eq_getElem?_getD, List.getElem?_append, List.getElem?_replicate,
    List.length_replicate]
  split
  · rfl
  · next h =>
    rw [List.getElem?_eq_none (by omega)]
    split <;> rfl

theorem getD_false_take (m : Nat) (row : List Bool) (c : Nat) :
    (row.take m).getD c false = if c < m then row.getD c false else false := by
  simp only [List.getD_eq_getElem?_getD, List.getElem?_take]
  split <;> rfl

theorem deadRow_getD (w c : Nat) : (deadRow w).getD c false = false :=
  getD_replicate_false w c

theorem cellAt_oob_row {rows : List (List Bool)} {r : Nat} (c : Nat)
    (h : rows.length <= r) : cellAt rows r c = false := by
  unfold cellAt
  rw [List.getD_eq_default _ _ h]
  rfl

theorem lt_length_of_cellAt {rows : List (List Bool)} {r c : Nat}
    (h : cellAt rows r c = true) : r < rows.length := by
  by_contra hlt
  rw [cellAt_oob_row c (by omega)] at h
  exact Bool.false_ne_true h

theorem cellAt_replicate_prepend (k w : Nat) (rows : List (List Bool)) (r c : Nat) :
    cellAt (List.replicate k (deadRow w) ++ rows) r c =
      if r < k then false else cellAt rows (r - k) c := by
  rw [cellAt_eq_getElem, cellAt_eq_getElem]
  simp only [List.getElem?_append, List.getElem?_replicate, List.length_replicate]
  split
  · simp only [Option.getD_some]
    rw [← List.getD_eq_getElem?_getD]
    exact deadRow_getD w c
  · rfl

theorem cellAt_drop (k : Nat) (rows : List (List Bool)) (r c : Nat) :
    cellAt (rows.drop k) r c = cellAt rows (k + r) c := by
  rw [cellAt_eq_getElem, cellAt_eq_getElem, List.getElem?_drop]

theorem cellAt_append_replicate (k w : Nat) (rows : List (List Bool)) (r c : Nat) :
    cellAt (rows ++ List.replicate k (deadRow w)) r c =
      if r < rows.length then cellAt rows r c else false := by
  rw [cellAt_eq_getElem, cellAt_eq_getElem]
  simp only [List.getElem?_append, List.getElem?_replicate]
  split
  · rfl
  · split
    · simp only [Option.getD_some]
      rw [← List.getD_eq_getElem?_getD]
      exact deadRow_getD w c
    · rfl

theorem cellAt_take (m : Nat) (rows : List (List Bool)) (r c : Nat) :
    cellAt (rows.take m) r c = if r < m then cellAt rows r c else false := by
  rw [cellAt_eq_getElem, cellAt_eq_getElem, List.getElem?_take]
  split <;> rfl

theorem cellAt_map_prepend (k : Nat) (rows : List (List Bool)) (r c : Nat) :
    cellAt (rows.map (fun row => List.replicate k false ++ row)) r c =
      if c < k then false else cellAt rows r (c - k) := by
  rw [cellAt_eq_getElem, cellAt_eq_getElem, List.getElem?_map]
  cases hrow : rows[r]? with
  | none =>
    simp only [Option.map_none, Option.getD_none]
    show (false : Bool) = if c < k then false else (([] : List Bool)[c - k]?).getD false
    split <;> rfl
  | some row =>
    simp only [Option.map_some, Option.getD_some]
    have := getD_false_replicate_prepend k row c
    simpa only [List.getD_eq_getElem?_getD] using this

theorem cellAt_map_drop (k : Nat) (rows : List (List Bool)) (r c : Nat) :
    cellAt (rows.map (fun row => row.drop k)) r c = cellAt rows r (k + c) := by
  rw [cellAt_eq_getElem, cellAt_eq_getElem, List.getElem?_map]
  cases hrow : rows[r]? with
  | none => rfl
  | some row =>
    simp only [Option.map_some, Option.getD_some]
    have := getD_false_drop k row c
    simpa only [List.getD_eq_getElem?_getD] using this

theorem cellAt_map_append (k : Nat) (rows : List (List Bool)) (r c : Nat) :
    cellAt (rows.map (fun row => row ++ List.replicate k false)) r c =
      cellAt rows r c := by
  rw [cellAt_eq_getElem, cellAt_eq_getElem, List.getElem?_map]
  cases hrow : rows[r]? with
  | none => rfl
  | some row =>
    simp only [Option.map_some, Option.getD_some]
    have := getD_false_append_replicate k row c
    simpa only [List.getD_eq_getElem?_getD] using this

theorem cellAt_map_take (m : Nat) (rows : List (List Bool)) (r c : Nat) :
    cellAt (rows.map (fun row => row.take m)) r c =
      if c < m then cellAt rows r c else false := by
  rw [cellAt_eq_getElem, cellAt_eq_getElem, List.getElem?_map]
  cases hrow : rows[r]? with
  | none =>
    simp only [Option.map_none, Option.getD_none]
    show (false : Bool) = if c < m then (([] : List Bool)[c]?).getD false else false
    split <;> rfl
  | some row =>
    simp only [Option.map_some, Option.getD_some]
    have := getD_false_take m row c
    simpa only [List.getD_eq_getElem?_getD] using this

/-! ### Characterizations of the four edge scans -/

theorem find?_range'_some (p : Nat → Bool) :
    ∀ (n s r : Nat), (List.range' s n).find? p = some r →
      s ≤ r ∧ r < s + n ∧ p r = true ∧ ∀ j, s ≤ j → j < r → p j = false := by
  intro n
  induction n with
  | zero => intro s r h; simp [List.range'] at h
  | succ n ih =>
    intro s r h
    rw [List.range'_succ] at h
    by_cases hs : p s
    · rw [List.find?_cons_of_pos _ hs] at h
      cases h
      exact ⟨le_rfl, by omega, hs, fun j h1 h2 => absurd (h1.trans_lt h2) (lt_irrefl _)⟩
    · rw [List.find?_cons_of_neg _ hs] at h
      obtain ⟨h1, h2, h3, h4⟩ := ih (s + 1) r h
      refine ⟨by omega, by omega, h3, fun j hj1 hj2 => ?_⟩
      rcases Nat.eq_or_lt_of_le hj1 with hj | hj
      · rw [← hj]
        exact Bool.eq_false_iff.mpr hs
      · exact h4 j hj hj2

theorem find?_range'_rev_some (p : Nat → Bool) :
    ∀ (n s r : Nat), ((List.range' s n).reverse).find? p = some r →
      s ≤ r ∧ r < s + n ∧ p r = true ∧ ∀ j, r < j → j < s + n → p j = false := by
  intro n
  induction n with
  | zero => intro s r h; simp [List.range'] at h
  | succ n ih =>
    intro s r h
    rw [List.range'_1_concat, List.reverse_append] at h
    simp only [List.reverse_cons, List.reverse_nil, List.nil_append,
      List.singleton_append] at h
    by_cases hs : p (s + n)
    · rw [List.find?_cons_of_pos _ hs] at h
      cases h
      exact ⟨by omega, by omega, hs, fun j h1 h2 => by omega⟩
    · rw [List.find?_cons_of_neg _ hs] at h
      obtain ⟨h1, h2, h3, h4⟩ := ih s r h
      refine ⟨h1, by omega, h3, fun j hj1 hj2 => ?_⟩
      by_cases hje : j = s + n
      · rw [hje]
        exact Bool.eq_false_iff.mpr hs
      · exact h4 j hj1 (by omega)

theorem find?_range_none {p : Nat → Bool} {n : Nat}
    (h : (List.range n).find? p = none) : ∀ j < n, p j = false := by
  intro j hj
  have := List.find?_eq_none.mp h j (List.mem_range.mpr hj)
  exact Bool.eq_false_iff.mpr this

theorem find?_range_rev_none {p : Nat → Bool} {n : Nat}
    (h : ((List.range n).reverse).find? p = none) : ∀ j < n, p j = false := by
  intro j hj
  have := List.find?_eq_none.mp h j (List.mem_reverse.mpr (List.mem_range.mpr hj))
  exact Bool.eq_false_iff.mpr this

theorem scanFirstLive_le (dead : Nat → Bool) (n : Nat) : scanFirstLive dead n ≤ n := by
  unfold scanFirstLive
  cases hf : (List.range n).find? (fun i => ! dead i) with
  | some i =>
    dsimp only
    rw [List.range_eq_range'] at hf
    have := find?_range'_some _ n 0 i hf
    omega
  | none => exact le_rfl

theorem scanFirstLive_dead_below (dead : Nat → Bool) (n : Nat) {j : Nat}
    (hj : j < scanFirstLive dead n) : dead j = true := by
  unfold scanFirstLive at hj
  cases hf : (List.range n).find? (fun i => ! dead i) with
  | some i =>
    rw [hf] at hj
    rw [List.range_eq_range'] at hf
    obtain ⟨-, -, -, h4⟩ := find?_range'_some _ n 0 i hf
    have := h4 j (Nat.zero_le j) hj
    simpa using this
  | none =>
    rw [hf] at hj
    have := find?_range_none hf j hj
    simpa using this

theorem scanFirstLive_not_dead (dead : Nat → Bool) (n : Nat)
    (h : scanFirstLive dead n < n) : dead (scanFirstLive dead n) = false := by
  unfold scanFirstLive at h ⊢
  cases hf : (List.range n).find? (fun i => ! dead i) with
  | some i =>
    rw [List.range_eq_range'] at hf
    obtain ⟨-, -, h3, -⟩ := find?_range'_some _ n 0 i hf
    simpa using h3
  | none =>
    rw [hf] at h
    exact absurd h (lt_irrefl n)

theorem scanLastLive_lt (dead : Nat → Bool) (first n : Nat) :
    scanLastLive dead first n < (n : Int) := by
  unfold scanLastLive
  cases hf : ((List.range n).reverse).find?
      (fun i => decide (i ≤ first) || ! dead i) with
  | some i =>
    dsimp only
    rw [List.range_eq_range'] at hf
    have := find?_range'_rev_some _ n 0 i hf
    omega
  | none =>
    dsimp only
    omega

theorem scanLastLive_nonneg (dead : Nat → Bool) (first n : Nat) (h : 1 ≤ n) :
    0 ≤ scanLastLive dead first n := by
  unfold scanLastLive
  cases hf : ((List.range n).reverse).find?
      (fun i => decide (i ≤ first) || ! dead i) with
  | some i =>
    dsimp only
    omega
  | none =>
    dsimp only
    omega

theorem scanLastLive_dead_above (dead : Nat → Bool) (first n : Nat) {j : Nat}
    (h1 : scanLastLive dead first n < (j : Int)) (h2 : j < n) : dead j = true := by
  unfold scanLastLive at h1
  cases hf : ((List.range n).reverse).find?
      (fun i => decide (i ≤ first) || ! dead i) with
  | some i =>
    rw [hf] at h1
    dsimp only at h1
    rw [List.range_eq_range'] at hf
    obtain ⟨-, -, -, h4⟩ := find?_range'_rev_some _ n 0 i hf
    have := h4 j (by omega) (by omega)
    simp only [Bool.or_eq_false_iff, decide_eq_false_iff_not, Bool.not_eq_false'] at this
    exact this.2
  | none =>
    rw [hf] at h1
    dsimp only at h1
    omega

theorem scanLastLive_prop (dead : Nat → Bool) (first n : Nat)
    (h : 0 ≤ scanLastLive dead first n) :
    (scanLastLive dead first n).toNat ≤ first ∨
      dead (scanLastLive dead first n).toNat = false := by
  unfold scanLastLive at h ⊢
  cases hf : ((List.range n).reverse).find?
      (fun i => decide (i ≤ first) || ! dead i) with
  | some i =>
    rw [List.range_eq_range'] at hf
    obtain ⟨-, -, h3, -⟩ := find?_range'_rev_some _ n 0 i hf
    simp only [Bool.or_eq_true, decide_eq_true_eq, Bool.not_eq_true'] at h3
    simpa using h3
  | none =>
    rw [hf] at h
    dsimp only at h
    have hn : 1 ≤ n := by omega
    have := find?_range_rev_none hf 0 (by omega)
    simp at this

theorem scanFirstLive_le_scanLastLive (dead : Nat → Bool) (n : Nat)
    (h : scanFirstLive dead n < n) :
    (scanFirstLive dead n : Int) ≤ scanLastLive dead (scanFirstLive dead n) n := by
  by_contra hcon
  push_neg at hcon
  have hdead := scanLastLive_dead_above dead (scanFirstLive dead n) n hcon h
  rw [scanFirstLive_not_dead dead n h] at hdead
  exact Bool.false_ne_true hdead

/-! ### Dead rows and columns versus cell contents -/

theorem cellAt_oob_col (g : Grid) (hwf : g.wf) (r : Nat) {c : Nat}
    (hc : g.extentC ≤ c) : cellAt g.rows r c = false := by
  by_cases hr : r < g.rows.length
  · have hmem : g.rows.getD r [] ∈ g.rows := by
      rw [List.getD_eq_getElem _ _ hr]
      exact List.getElem_mem hr
    have hlen : (g.rows.getD r []).length = g.extentC := hwf.2 _ hmem
    unfold cellAt
    rw [List.getD_eq_default _ _ (by omega)]
  · exact cellAt_oob_row c (by omega)

theorem rowIsDead_iff (g : Grid) (hwf : g.wf) (r : Nat) :
    g.rowIsDead r = true ↔ ∀ c, cellAt g.rows r c = false := by
  unfold Grid.rowIsDead
  rw [List.isEmpty_iff, List.filter_eq_nil_iff]
  constructor
  · intro h c
    by_cases hc : c < g.extentC
    · have := h c (List.mem_range.mpr hc)
      simpa [Grid.isCellAlive] using this
    · exact cellAt_oob_col g hwf r (by omega)
  · intro h c hc
    simp [Grid.isCellAlive, h c]

theorem colIsDead_iff (g : Grid) (hwf : g.wf) (c : Nat) :
    g.colIsDead c = true ↔ ∀ r, cellAt g.rows r c = false := by
  unfold Grid.colIsDead
  rw [List.isEmpty_iff, List.filter_eq_nil_iff]
  constructor
  · intro h r
    by_cases hr : r < g.extentR
    · have := h r (List.mem_range.mpr hr)
      simpa [Grid.isCellAlive] using this
    · exact cellAt_oob_row c (by rw [hwf.1]; omega)
  · intro h r hr
    simp [Grid.isCellAlive, h r]

theorem findTop_le_of_live (g : Grid) (hwf : g.wf) {r c : Nat}
    (h : cellAt g.rows r c = true) : g.findTop ≤ r := by
  by_contra hcon
  push_neg at hcon
  have hdead := scanFirstLive_dead_below g.rowIsDead g.extentR hcon
  rw [(rowIsDead_iff g hwf r).mp hdead c] at h
  exact Bool.false_ne_true h

theorem live_le_findBottom (g : Grid) (hwf : g.wf) {r c : Nat}
    (h : cellAt g.rows r c = true) : (r : Int) ≤ g.findBottom g.findTop := by
  by_contra hcon
  push_neg at hcon
  have hr : r < g.extentR := hwf.1 ▸ lt_length_of_cellAt h
  have hdead := scanLastLive_dead_above g.rowIsDead g.findTop g.extentR hcon hr
  rw [(rowIsDead_iff g hwf r).mp hdead c] at h
  exact Bool.false_ne_true h

theorem findLeft_le_of_live (g : Grid) (hwf : g.wf) {r c : Nat}
    (h : cellAt g.rows r c = true) : g.findLeft ≤ c := by
  by_contra hcon
  push_neg at hcon
  have hdead := scanFirstLive_dead_below g.colIsDead g.extentC hcon
  rw [(colIsDead_iff g hwf c).mp hdead r] at h
  exact Bool.false_ne_true h

theorem live_lt_extentC (g : Grid) (hwf : g.wf) {r c : Nat}
    (h : cellAt g.rows r c = true) : c < g.extentC := by
  by_contra hcon
  push_neg at hcon
  rw [cellAt_oob_col g hwf r hcon] at h
  exact Bool.false_ne_true h

theorem live_le_findRight (g : Grid) (hwf : g.wf) {r c : Nat}
    (h : cellAt g.rows r c = true) : (c : Int) ≤ g.findRight g.findLeft := by
  by_contra hcon
  push_neg at hcon
  have hc : c < g.extentC := live_lt_extentC g hwf h
  have hdead := scanLastLive_dead_above g.colIsDead g.findLeft g.extentC hcon hc
  rw [(colIsDead_iff g hwf c).mp hdead r] at h
  exact Bool.false_ne_true h

theorem scanLastLive_ge_neg_one (dead : Nat → Bool) (first n : Nat) :
    -1 ≤ scanLastLive dead first n := by
  unfold scanLastLive
  cases hf : ((List.range n).reverse).find?
      (fun i => decide (i ≤ first) || ! dead i) with
  | some i =>
    dsimp only
    omega
  | none =>
    dsimp only
    omega

theorem scanLastLive_last (dead : Nat → Bool) (first n : Nat) (hn : 1 ≤ n)
    (h : n - 1 ≤ first) : scanLastLive dead first n = (n : Int) - 1 := by
  obtain ⟨m, rfl⟩ : ∃ m, n = m + 1 := ⟨n - 1, by omega⟩
  unfold scanLastLive
  rw [List.range_eq_range', List.range'_1_concat, List.reverse_append]
  simp only [List.reverse_cons, List.reverse_nil, List.nil_append, List.singleton_append,
    Nat.zero_add]
  rw [List.find?_cons_of_pos _ (by simp; omega)]
  dsimp only
  omega

theorem scanFirstLive_le_scanLastLive_add_one (dead : Nat → Bool) (n first : Nat)
    (hfirst : first = scanFirstLive dead n) :
    (scanFirstLive dead n : Int) ≤ scanLastLive dead first n + 1 := by
  subst hfirst
  by_cases h : scanFirstLive dead n < n
  · have := scanFirstLive_le_scanLastLive dead n h
    omega
  · have hle := scanFirstLive_le dead n
    have heq : scanFirstLive dead n = n := by omega
    by_cases hn : 1 ≤ n
    · rw [scanLastLive_last dead (scanFirstLive dead n) n hn (by omega)]
      omega
    · have hn0 : n = 0 := by omega
      have := scanLastLive_ge_neg_one dead (scanFirstLive dead n) n
      omega

/-! ### Live-cell transport through the four phases -/

theorem phaseNorth_live_iff (trimNow : Bool) (dN : Int) (eC : Nat)
    (rows : List (List Bool)) (r c : Nat) :
    cellAt (phaseNorth trimNow dN eC rows) r c = true ↔
      ∃ r0 : Nat, cellAt rows r0 c = true ∧
        (r : Int) = (r0 : Int) + (if 0 < dN then dN else if trimNow then dN else 0) := by
  rw [phaseNorth_eq]
  by_cases hdN : 0 < dN
  · simp only [if_pos hdN]
    rw [cellAt_replicate_prepend]
    constructor
    · intro hcell
      by_cases hk : r < dN.toNat
      · rw [if_pos hk] at hcell
        exact absurd hcell Bool.false_ne_true
      · rw [if_neg hk] at hcell
        exact ⟨r - dN.toNat, hcell, by omega⟩
    · rintro ⟨r0, hcell, hr⟩
      rw [if_neg (by omega)]
      have heq : r - dN.toNat = r0 := by omega
      rw [heq]
      exact hcell
  · simp only [if_neg hdN]
    by_cases htrim : trimNow
    · simp only [if_pos htrim]
      rw [cellAt_drop]
      constructor
      · intro hcell
        exact ⟨(-dN).toNat + r, hcell, by omega⟩
      · rintro ⟨r0, hcell, hr⟩
        have heq : (-dN).toNat + r = r0 := by omega
        rw [heq]
        exact hcell
    · simp only [if_neg htrim]
      constructor
      · intro hcell
        exact ⟨r, hcell, by omega⟩
      · rintro ⟨r0, hcell, hr⟩
        have heq : r = r0 := by omega
        rw [heq]
        exact hcell

theorem phaseSouth_live_iff (trimNow : Bool) (dS : Int) (eC : Nat)
    (rows : List (List Bool))
    (habs : trimNow = true → ¬ 0 < dS →
      ∀ r c : Nat, cellAt rows r c = true → (r : Int) < (rows.length : Int) + dS)
    (r c : Nat) :
    cellAt (phaseSouth trimNow dS eC rows) r c = true ↔ cellAt rows r c = true := by
  rw [phaseSouth_eq]
  by_cases hdS : 0 < dS
  · simp only [if_pos hdS]
    rw [cellAt_append_replicate]
    constructor
    · intro hcell
      by_cases hr : r < rows.length
      · rwa [if_pos hr] at hcell
      · rw [if_neg hr] at hcell
        exact absurd hcell Bool.false_ne_true
    · intro hcell
      rw [if_pos (lt_length_of_cellAt hcell)]
      exact hcell
  · simp only [if_neg hdS]
    by_cases htrim : trimNow
    · simp only [if_pos htrim]
      rw [cellAt_take]
      constructor
      · intro hcell
        by_cases hr : r < rows.length - (-dS).toNat
        · rwa [if_pos hr] at hcell
        · rw [if_neg hr] at hcell
          exact absurd hcell Bool.false_ne_true
      · intro hcell
        have hbound := habs htrim hdS r c hcell
        rw [if_pos (by omega)]
        exact hcell
    · simp only [if_neg htrim]

theorem phaseWest_live_iff (trimNow : Bool) (dW : Int)
    (rows : List (List Bool)) (r c : Nat) :
    cellAt (phaseWest trimNow dW rows) r c = true ↔
      ∃ c0 : Nat, cellAt rows r c0 = true ∧
        (c : Int) = (c0 : Int) + (if 0 < dW then dW else if trimNow then dW else 0) := by
  rw [phaseWest_eq]
  by_cases hdW : 0 < dW
  · simp only [if_pos hdW]
    rw [cellAt_map_prepend]
    constructor
    · intro hcell
      by_cases hk : c < dW.toNat
      · rw [if_pos hk] at hcell
        exact absurd hcell Bool.false_ne_true
      · rw [if_neg hk] at hcell
        exact ⟨c - dW.toNat, hcell, by omega⟩
    · rintro ⟨c0, hcell, hc⟩
      rw [if_neg (by omega)]
      have heq : c - dW.toNat = c0 := by omega
      rw [heq]
      exact hcell
  · simp only [if_neg hdW]
    by_cases htrim : trimNow
    · simp only [if_pos htrim]
      rw [cellAt_map_drop]
      constructor
      · intro hcell
        exact ⟨(-dW).toNat + c, hcell, by omega⟩
      · rintro ⟨c0, hcell, hc⟩
        have heq : (-dW).toNat + c = c0 := by omega
        rw [heq]
        exact hcell
    · simp only [if_neg htrim]
      constructor
      · intro hcell
        exact ⟨c, hcell, by omega⟩
      · rintro ⟨c0, hcell, hc⟩
        have heq : c = c0 := by omega
        rw [heq]
        exact hcell

theorem phaseEast_live_iff (trimNow : Bool) (dE : Int) (w : Nat)
    (rows : List (List Bool)) (hrect : ∀ row ∈ rows, row.length = w)
    (habs : trimNow = true → ¬ 0 < dE →
      ∀ r c : Nat, cellAt rows r c = true → (c : Int) < (w : Int) + dE)
    (r c : Nat) :
    cellAt (phaseEast trimNow dE rows) r c = true ↔ cellAt rows r c = true := by
  unfold phaseEast
  by_cases hdE : 0 < dE
  · simp only [if_pos hdE]
    rw [phaseEast_grow dE.toNat w rows hrect, cellAt_map_append]
  · simp only [if_neg hdE]
    by_cases htrim : trimNow
    · simp only [if_pos htrim]
      rw [phaseEast_trim (-dE).toNat w rows hrect, cellAt_map_take]
      constructor
      · intro hcell
        by_cases hc : c < w - (-dE).toNat
        · rwa [if_pos hc] at hcell
        · rw [if_neg hc] at hcell
          exact absurd hcell Bool.false_ne_true
      · intro hcell
        have hbound := habs htrim hdE r c hcell
        rw [if_pos (by omega)]
        exact hcell
    · simp only [if_neg htrim]

/-! ### Lengths and widths through the four phases -/

theorem length_iterate_map_self (f : List (List Bool) → List Bool → List Bool)
    (k : Nat) (rows : List (List Bool)) :
    ((fun rs => rs.map (f rs))^[k] rows).length = rows.length := by
  induction k generalizing rows with
  | zero => rfl
  | succ k ih =>
    rw [Function.iterate_succ_apply]
    rw [ih (rows.map (f rows))]
    exact List.length_map rows (f rows)

theorem phaseNorth_length (trimNow : Bool) (dN : Int) (eC : Nat)
    (rows : List (List Bool))
    (h : trimNow = true → ¬ 0 < dN → (-dN).toNat ≤ rows.length) :
    ((phaseNorth trimNow dN eC rows).length : Int) =
      rows.length + (if 0 < dN then dN else if trimNow then dN else 0) := by
  rw [phaseNorth_eq]
  by_cases hdN : 0 < dN
  · simp only [if_pos hdN, List.length_append, List.length_replicate]
    omega
  · simp only [if_neg hdN]
    by_cases htrim : trimNow
    · simp only [if_pos htrim, List.length_drop]
      have := h htrim hdN
      omega
    · simp only [if_neg htrim]
      omega

theorem phaseSouth_length (trimNow : Bool) (dS : Int) (eC : Nat)
    (rows : List (List Bool))
    (h : trimNow = true → ¬ 0 < dS → (-dS).toNat ≤ rows.length) :
    ((phaseSouth trimNow dS eC rows).length : Int) =
      rows.length + (if 0 < dS then dS else if trimNow then dS else 0) := by
  rw [phaseSouth_eq]
  by_cases hdS : 0 < dS
  · simp only [if_pos hdS, List.length_append, List.length_replicate]
    omega
  · simp only [if_neg hdS]
    by_cases htrim : trimNow
    · simp only [if_pos htrim, List.length_take]
      have := h htrim hdS
      omega
    · simp only [if_neg htrim]
      omega

theorem phaseWest_length (trimNow : Bool) (dW : Int) (rows : List (List Bool)) :
    (phaseWest trimNow dW rows).length = rows.length := by
  unfold phaseWest
  by_cases hdW : 0 < dW
  · simp only [if_pos hdW]
    exact length_iterate_map_self (fun _ row => pyInsert false 0 row) dW.toNat rows
  · simp only [if_neg hdW]
    by_cases htrim : trimNow
    · simp only [if_pos htrim]
      exact length_iterate_map_self (fun _ row => pyPop 0 row) (-dW).toNat rows
    · simp only [if_neg htrim]

theorem phaseEast_length (trimNow : Bool) (dE : Int) (rows : List (List Bool)) :
    (phaseEast trimNow dE rows).length = rows.length := by
  unfold phaseEast
  by_cases hdE : 0 < dE
  · simp only [if_pos hdE]
    exact length_iterate_map_self
      (fun rs row => pyInsert false (rs.headD []).length row) dE.toNat rows
  · simp only [if_neg hdE]
    by_cases htrim : trimNow
    · simp only [if_pos htrim]
      exact length_iterate_map_self
        (fun rs row => pyPop ((rs.headD []).length - 1) row) (-dE).toNat rows
    · simp only [if_neg htrim]

theorem phaseNorth_rect (trimNow : Bool) (dN : Int) (eC : Nat)
    (rows : List (List Bool)) (hrect : ∀ row ∈ rows, row.length = eC) :
    ∀ row ∈ phaseNorth trimNow dN eC rows, row.length = eC := by
  rw [phaseNorth_eq]
  by_cases hdN : 0 < dN
  · simp only [if_pos hdN]
    intro row hrow
    rcases List.mem_append.mp hrow with hl | hr
    · rw [List.eq_of_mem_replicate hl]
      exact List.length_replicate eC false
    · exact hrect row hr
  · simp only [if_neg hdN]
    by_cases htrim : trimNow
    · simp only [if_pos htrim]
      intro row hrow
      exact hrect row (List.mem_of_mem_drop hrow)
    · simp only [if_neg htrim]
      exact hrect

theorem phaseSouth_rect (trimNow : Bool) (dS : Int) (eC : Nat)
    (rows : List (List Bool)) (hrect : ∀ row ∈ rows, row.length = eC) :
    ∀ row ∈ phaseSouth trimNow dS eC rows, row.length = eC := by
  rw [phaseSouth_eq]
  by_cases hdS : 0 < dS
  · simp only [if_pos hdS]
    intro row hrow
    rcases List.mem_append.mp hrow with hl | hr
    · exact hrect row hl
    · rw [List.eq_of_mem_replicate hr]
      exact List.length_replicate eC false
  · simp only [if_neg hdS]
    by_cases htrim : trimNow
    · simp only [if_pos htrim]
      intro row hrow
      exact hrect row (List.mem_of_mem_take hrow)
    · simp only [if_neg htrim]
      exact hrect

theorem phaseWest_rect (trimNow : Bool) (dW : Int) (w : Nat)
    (rows : List (List Bool)) (hrect : ∀ row ∈ rows, row.length = w)
    (h : trimNow = true → ¬ 0 < dW → (-dW).toNat ≤ w) :
    ∀ row ∈ phaseWest trimNow dW rows,
      (row.length : Int) = w + (if 0 < dW then dW else if trimNow then dW else 0) := by
  rw [phaseWest_eq]
  by_cases hdW : 0 < dW
  · simp only [if_pos hdW]
    intro row hrow
    rcases List.mem_map.mp hrow with ⟨row0, hrow0, rfl⟩
    simp only [List.length_append, List.length_replicate, hrect row0 hrow0]
    omega
  · simp only [if_neg hdW]
    by_cases htrim : trimNow
    · simp only [if_pos htrim]
      intro row hrow
      rcases List.mem_map.mp hrow with ⟨row0, hrow0, rfl⟩
      simp only [List.length_drop, hrect row0 hrow0]
      have := h htrim hdW
      omega
    · simp only [if_neg htrim]
      intro row hrow
      rw [hrect row hrow]
      omega

theorem phaseEast_rect (trimNow : Bool) (dE : Int) (w : Nat)
    (rows : List (List Bool)) (hrect : ∀ row ∈ rows, row.length = w)
    (h : trimNow = true → ¬ 0 < dE → (-dE).toNat ≤ w) :
    ∀ row ∈ phaseEast trimNow dE rows,
      (row.length : Int) = w + (if 0 < dE then dE else if trimNow then dE else 0) := by
  unfold phaseEast
  by_cases hdE : 0 < dE
  · simp only [if_pos hdE]
    rw [phaseEast_grow dE.toNat w rows hrect]
    intro row hrow
    rcases List.mem_map.mp hrow with ⟨row0, hrow0, rfl⟩
    simp only [List.length_append, List.length_replicate, hrect row0 hrow0]
    omega
  · simp only [if_neg hdE]
    by_cases htrim : trimNow
    · simp only [if_pos htrim]
      rw [phaseEast_trim (-dE).toNat w rows hrect]
      intro row hrow
      rcases List.mem_map.mp hrow with ⟨row0, hrow0, rfl⟩
      simp only [List.length_take, hrect row0 hrow0]
      have := h htrim hdE
      omega
    · simp only [if_neg htrim]
      intro row hrow
      rw [hrect row hrow]
      omega

/-! ### The net effect of one margin-maintenance call -/

/-- The net offset a phase applies: the deficit when growing, the deficit
again when trimming (a negative offset), nothing when a trim is
deferred. -/
def shiftVal (trimNow : Bool) (d : Int) : Int :=
  if 0 < d then d else if trimNow then d else 0

theorem shiftVal_true (d : Int) : shiftVal true d = d := by
  unfold shiftVal
  split
  · rfl
  · rfl

theorem shiftVal_cases (t : Bool) (d : Int) :
    shiftVal t d = d ∨ (shiftVal t d = 0 ∧ d ≤ 0) := by
  unfold shiftVal
  split
  · exact Or.inl rfl
  · split
    · exact Or.inl rfl
    · next h _ => exact Or.inr ⟨rfl, by omega⟩

/-- The four phases of _maintainMargin in program order. -/
def marginPhases (trimNow : Bool) (eC : Nat) (dN dE dS dW : Int)
    (rows : List (List Bool)) : List (List Bool) :=
  phaseEast trimNow dE (phaseWest trimNow dW
    (phaseSouth trimNow dS eC (phaseNorth trimNow dN eC rows)))

theorem marginPhases_spec (trimNow : Bool) (R C : Nat) (mN mE mS mW T L B Rt : Int)
    (rows : List (List Bool))
    (hlenR : rows.length = R) (hrect : ∀ row ∈ rows, row.length = C)
    (hmN : 1 ≤ mN) (hmE : 1 ≤ mE) (hmS : 1 ≤ mS) (hmW : 1 ≤ mW)
    (hB_lt : B < (R : Int)) (hTB : T ≤ B + 1)
    (hL_le : L ≤ (C : Int)) (hLR : L ≤ Rt + 1)
    (hliveB : ∀ r0 c0 : Nat, cellAt rows r0 c0 = true → (r0 : Int) ≤ B)
    (hliveR : ∀ r0 c0 : Nat, cellAt rows r0 c0 = true → (c0 : Int) ≤ Rt) :
    ∀ rows4, rows4 = marginPhases trimNow C (mN - T) (mE - ((C : Int) - Rt - 1))
        (mS - ((R : Int) - B - 1)) (mW - L) rows →
      (∀ r c : Nat, cellAt rows4 r c = true ↔
        ∃ r0 c0 : Nat, cellAt rows r0 c0 = true ∧
          (r : Int) = (r0 : Int) + shiftVal trimNow (mN - T) ∧
          (c : Int) = (c0 : Int) + shiftVal trimNow (mW - L)) ∧
      ((rows4.length : Int) = (R : Int) + shiftVal trimNow (mN - T) +
        shiftVal trimNow (mS - ((R : Int) - B - 1))) ∧
      rows4 ≠ [] ∧
      (∀ row ∈ rows4, (row.length : Int) = (C : Int) + shiftVal trimNow (mW - L) +
        shiftVal trimNow (mE - ((C : Int) - Rt - 1))) := by
  intro rows4 hrows4
  -- phase 1: north
  have hnorth_iff : ∀ r c : Nat,
      cellAt (phaseNorth trimNow (mN - T) C rows) r c = true ↔
        ∃ r0 : Nat, cellAt rows r0 c = true ∧
          (r : Int) = (r0 : Int) + shiftVal trimNow (mN - T) :=
    fun r c => phaseNorth_live_iff trimNow (mN - T) C rows r c
  have hlen1 : ((phaseNorth trimNow (mN - T) C rows).length : Int) =
      (R : Int) + shiftVal trimNow (mN - T) := by
    rw [phaseNorth_length trimNow (mN - T) C rows (fun _ _ => by omega)]
    rw [hlenR]
    rfl
  have hrect1 : ∀ row ∈ phaseNorth trimNow (mN - T) C rows, row.length = C :=
    phaseNorth_rect trimNow (mN - T) C rows hrect
  -- phase 2: south
  have habsS : trimNow = true → ¬ 0 < mS - ((R : Int) - B - 1) →
      ∀ r c : Nat, cellAt (phaseNorth trimNow (mN - T) C rows) r c = true →
        (r : Int) < ((phaseNorth trimNow (mN - T) C rows).length : Int) +
          (mS - ((R : Int) - B - 1)) := by
    intro _ _ r c hcell
    obtain ⟨r0, hcell0, hr⟩ := (hnorth_iff r c).mp hcell
    have hb := hliveB r0 c hcell0
    rw [hlen1]
    omega
  have hsouth_iff : ∀ r c : Nat,
      cellAt (phaseSouth trimNow (mS - ((R : Int) - B - 1)) C
        (phaseNorth trimNow (mN - T) C rows)) r c = true ↔
      cellAt (phaseNorth trimNow (mN - T) C rows) r c = true :=
    fun r c => phaseSouth_live_iff trimNow (mS - ((R : Int) - B - 1)) C
      (phaseNorth trimNow (mN - T) C rows) habsS r c
  have hsN_trim : trimNow = true → shiftVal trimNow (mN - T) = mN - T := by
    intro h
    rw [h, shiftVal_true]
  have hlen2 : ((phaseSouth trimNow (mS - ((R : Int) - B - 1)) C
      (phaseNorth trimNow (mN - T) C rows)).length : Int) =
      (R : Int) + shiftVal trimNow (mN - T) +
        shiftVal trimNow (mS - ((R : Int) - B - 1)) := by
    rw [phaseSouth_length trimNow (mS - ((R : Int) - B - 1)) C
      (phaseNorth trimNow (mN - T) C rows)
      (fun ht hd => by
        have h1 := hlen1
        have h2 := hsN_trim ht
        omega)]
    rw [hlen1]
    rfl
  have hrect2 : ∀ row ∈ phaseSouth trimNow (mS - ((R : Int) - B - 1)) C
      (phaseNorth trimNow (mN - T) C rows), row.length = C :=
    phaseSouth_rect trimNow (mS - ((R : Int) - B - 1)) C
      (phaseNorth trimNow (mN - T) C rows) hrect1
  -- phase 3: west
  have hwest_iff : ∀ r c : Nat,
      cellAt (phaseWest trimNow (mW - L)
        (phaseSouth trimNow (mS - ((R : Int) - B - 1)) C
          (phaseNorth trimNow (mN - T) C rows))) r c = true ↔
      ∃ c0 : Nat, cellAt (phaseSouth trimNow (mS - ((R : Int) - B - 1)) C
          (phaseNorth trimNow (mN - T) C rows)) r c0 = true ∧
        (c : Int) = (c0 : Int) + shiftVal trimNow (mW - L) :=
    fun r c => phaseWest_live_iff trimNow (mW - L) _ r c
  have hsw_cases := shiftVal_cases trimNow (mW - L)
  have hw3_nonneg : 0 ≤ (C : Int) + shiftVal trimNow (mW - L) := by omega
  have hrect3 : ∀ row ∈ phaseWest trimNow (mW - L)
      (phaseSouth trimNow (mS - ((R : Int) - B - 1)) C
        (phaseNorth trimNow (mN - T) C rows)),
      (row.length : Int) = (C : Int) + shiftVal trimNow (mW - L) :=
    phaseWest_rect trimNow (mW - L) C _ hrect2 (fun _ _ => by omega)
  have hrect3n : ∀ row ∈ phaseWest trimNow (mW - L)
      (phaseSouth trimNow (mS - ((R : Int) - B - 1)) C
        (phaseNorth trimNow (mN - T) C rows)),
      row.length = ((C : Int) + shiftVal trimNow (mW - L)).toNat := by
    intro row hrow
    have := hrect3 row hrow
    omega
  -- a live cell of phase-3 output sits in a column bounded by Rt + shift
  have hlive3 : ∀ r c : Nat, cellAt (phaseWest trimNow (mW - L)
      (phaseSouth trimNow (mS - ((R : Int) - B - 1)) C
        (phaseNorth trimNow (mN - T) C rows))) r c = true →
      (c : Int) ≤ Rt + shiftVal trimNow (mW - L) := by
    intro r c hcell
    obtain ⟨c0, hcell2, hc⟩ := (hwest_iff r c).mp hcell
    have hcell1 := (hsouth_iff r c0).mp hcell2
    obtain ⟨r0, hcell0, -⟩ := (hnorth_iff r c0).mp hcell1
    have := hliveR r0 c0 hcell0
    omega
  -- phase 4: east
  have habsE : trimNow = true → ¬ 0 < mE - ((C : Int) - Rt - 1) →
      ∀ r c : Nat, cellAt (phaseWest trimNow (mW - L)
        (phaseSouth trimNow (mS - ((R : Int) - B - 1)) C
          (phaseNorth trimNow (mN - T) C rows))) r c = true →
        (c : Int) < ((((C : Int) + shiftVal trimNow (mW - L)).toNat : Nat) : Int) +
          (mE - ((C : Int) - Rt - 1)) := by
    intro _ _ r c hcell
    have := hlive3 r c hcell
    omega
  have heast_iff : ∀ r c : Nat, cellAt rows4 r c = true ↔
      cellAt (phaseWest trimNow (mW - L)
        (phaseSouth trimNow (mS - ((R : Int) - B - 1)) C
          (phaseNorth trimNow (mN - T) C rows))) r c = true := by
    intro r c
    rw [hrows4]
    exact phaseEast_live_iff trimNow (mE - ((C : Int) - Rt - 1))
      (((C : Int) + shiftVal trimNow (mW - L)).toNat) _ hrect3n habsE r c
  refine ⟨?_, ?_, ?_, ?_⟩
  · -- the live-cell transport
    intro r c
    rw [heast_iff r c, hwest_iff r c]
    constructor
    · rintro ⟨c0, hcell2, hc⟩
      obtain ⟨r0, hcell0, hr⟩ := (hnorth_iff r c0).mp ((hsouth_iff r c0).mp hcell2)
      exact ⟨r0, c0, hcell0, hr, hc⟩
    · rintro ⟨r0, c0, hcell0, hr, hc⟩
      exact ⟨c0, (hsouth_iff r c0).mpr ((hnorth_iff r c0).mpr ⟨r0, hcell0, hr⟩), hc⟩
  · -- the row count
    rw [hrows4]
    unfold marginPhases
    rw [Nat.cast_inj.mpr (phaseEast_length _ _ _), Nat.cast_inj.mpr (phaseWest_length _ _ _)]
    exact hlen2
  · -- non-emptiness
    rw [hrows4]
    intro hnil
    have hlen0 : (marginPhases trimNow C (mN - T) (mE - ((C : Int) - Rt - 1))
        (mS - ((R : Int) - B - 1)) (mW - L) rows).length = 0 := by
      rw [hnil]
      rfl
    unfold marginPhases at hlen0
    rw [phaseEast_length, phaseWest_length] at hlen0
    have : ((phaseSouth trimNow (mS - ((R : Int) - B - 1)) C
        (phaseNorth trimNow (mN - T) C rows)).length : Int) = 0 := by
      rw [hlen0]
      rfl
    rw [hlen2] at this
    rcases shiftVal_cases trimNow (mN - T) with h1 | h1 <;>
      rcases shiftVal_cases trimNow (mS - ((R : Int) - B - 1)) with h2 | h2 <;>
      omega
  · -- the widths
    intro row hrow
    rw [hrows4] at hrow
    unfold marginPhases at hrow
    have := phaseEast_rect trimNow (mE - ((C : Int) - Rt - 1))
      (((C : Int) + shiftVal trimNow (mW - L)).toNat) _ hrect3n
      (fun _ _ => by omega) row hrow
    rw [this]
    have hsv : shiftVal trimNow (mE - ((C : Int) - Rt - 1)) =
        (if 0 < mE - ((C : Int) - Rt - 1) then mE - ((C : Int) - Rt - 1)
         else if trimNow then mE - ((C : Int) - Rt - 1) else 0) := rfl
    rw [← hsv]
    omega

theorem headD_mem {rows : List (List Bool)} (h : rows ≠ []) :
    rows.headD [] ∈ rows := by
  cases rows with
  | nil => exact absurd rfl h
  | cons a l => exact List.mem_cons_self a l

theorem maintainMargin_spec (g : Grid) (trimNow : Bool) (hwf : g.wf)
    (hm : g.okMargins) :
    (∀ r c : Nat, cellAt (g.maintainMargin trimNow).rows r c = true ↔
      ∃ r0 c0 : Nat, cellAt g.rows r0 c0 = true ∧
        (r : Int) = (r0 : Int) + shiftVal trimNow (g.marginN - (g.findTop : Int)) ∧
        (c : Int) = (c0 : Int) + shiftVal trimNow (g.marginW - (g.findLeft : Int))) ∧
    ((g.maintainMargin trimNow).extentR : Int) =
      (g.extentR : Int) + shiftVal trimNow (g.marginN - (g.findTop : Int)) +
        shiftVal trimNow (g.marginS - ((g.extentR : Int) - g.findBottom g.findTop - 1)) ∧
    ((g.maintainMargin trimNow).extentC : Int) =
      (g.extentC : Int) + shiftVal trimNow (g.marginW - (g.findLeft : Int)) +
        shiftVal trimNow (g.marginE - ((g.extentC : Int) - g.findRight g.findLeft - 1)) ∧
    (g.maintainMargin trimNow).wf := by
  obtain ⟨hmN, hmE, hmS, hmW⟩ := hm
  have hspec := marginPhases_spec trimNow g.extentR g.extentC
    g.marginN g.marginE g.marginS g.marginW
    (g.findTop : Int) (g.findLeft : Int) (g.findBottom g.findTop) (g.findRight g.findLeft)
    g.rows hwf.1 hwf.2 hmN hmE hmS hmW
    (scanLastLive_lt g.rowIsDead g.findTop g.extentR)
    (scanFirstLive_le_scanLastLive_add_one g.rowIsDead g.extentR g.findTop rfl)
    (Int.ofNat_le.mpr (scanFirstLive_le g.colIsDead g.extentC))
    (scanFirstLive_le_scanLastLive_add_one g.colIsDead g.extentC g.findLeft rfl)
    (fun r0 c0 h => live_le_findBottom g hwf h)
    (fun r0 c0 h => live_le_findRight g hwf h)
    (g.maintainMargin trimNow).rows rfl
  obtain ⟨hiff, hlen, hne, hwid⟩ := hspec
  have hextR : (g.maintainMargin trimNow).extentR =
      (g.maintainMargin trimNow).rows.length := rfl
  have hextC : (g.maintainMargin trimNow).extentC =
      ((g.maintainMargin trimNow).rows.headD []).length := rfl
  have hheadwid := hwid _ (headD_mem hne)
  refine ⟨hiff, ?_, ?_, ?_, ?_⟩
  · rw [hextR]
    exact hlen
  · rw [hextC]
    exact hheadwid
  · rw [hextR]
  · intro row hrow
    have := hwid row hrow
    rw [hextC]
    omega

/-! ### Point application preserves dimensions -/

theorem pyIdx_lt {n : Nat} {i : Int} {m : Nat} (h : pyIdx n i = some m) : m < n := by
  unfold pyIdx at h
  by_cases h1 : 0 ≤ i ∧ i < (n : Int)
  · rw [if_pos h1] at h
    cases h
    omega
  · rw [if_neg h1] at h
    by_cases h2 : -(n : Int) ≤ i ∧ i < 0
    · rw [if_pos h2] at h
      cases h
      omega
    · rw [if_neg h2] at h
      exact absurd h (Option.some_ne_none m).symm

theorem setPoint_length (rows : List (List Bool)) (p : GridPoint) :
    (setPoint rows p).length = rows.length := by
  unfold setPoint
  split
  · rfl
  · split
    · rfl
    · exact List.length_set rows _ _

theorem setPoint_rect {rows : List (List Bool)} {C : Nat}
    (hrect : ∀ row ∈ rows, row.length = C) (p : GridPoint) :
    ∀ row ∈ setPoint rows p, row.length = C := by
  unfold setPoint
  split
  · exact hrect
  · next rn h1 =>
    split
    · exact hrect
    · intro row hrow
      rcases List.mem_or_eq_of_mem_set hrow with hmem | heq
      · exact hrect row hmem
      · rw [heq, List.length_set]
        have hlt := pyIdx_lt h1
        exact hrect _ (by
          rw [List.getD_eq_getElem _ _ hlt]
          exact List.getElem_mem hlt)

theorem foldl_setPoint_length (points : List GridPoint) (rows : List (List Bool)) :
    (points.foldl setPoint rows).length = rows.length := by
  induction points generalizing rows with
  | nil => rfl
  | cons p ps ih =>
    rw [List.foldl_cons, ih (setPoint rows p), setPoint_length]

theorem foldl_setPoint_rect {C : Nat} (points : List GridPoint)
    (rows : List (List Bool)) (hrect : ∀ row ∈ rows, row.length = C) :
    ∀ row ∈ points.foldl setPoint rows, row.length = C := by
  induction points generalizing rows with
  | nil => exact hrect
  | cons p ps ih =>
    rw [List.foldl_cons]
    exact ih (setPoint rows p) (setPoint_rect hrect p)

theorem exists_live_of_rowIsDead_false (g : Grid) (hwf : g.wf) (r : Nat)
    (h : g.rowIsDead r = false) : ∃ c, cellAt g.rows r c = true := by
  by_contra hcon
  push_neg at hcon
  have hall : ∀ c, cellAt g.rows r c = false := fun c => Bool.eq_false_iff.mpr (hcon c)
  rw [(rowIsDead_iff g hwf r).mpr hall] at h
  exact absurd h (by simp)

theorem exists_live_of_colIsDead_false (g : Grid) (hwf : g.wf) (c : Nat)
    (h : g.colIsDead c = false) : ∃ r, cellAt g.rows r c = true := by
  by_contra hcon
  push_neg at hcon
  have hall : ∀ r, cellAt g.rows r c = false := fun r => Bool.eq_false_iff.mpr (hcon r)
  rw [(colIsDead_iff g hwf c).mpr hall] at h
  exact absurd h (by simp)

theorem maintainMargin_margin_bounds (g : Grid) (trimNow : Bool)
    (hwf : g.wf) (hm : g.okMargins) :
    (∀ r c : Nat, cellAt (g.maintainMargin trimNow).rows r c = true →
      g.marginN ≤ (r : Int) ∧
      (r : Int) + g.marginS < ((g.maintainMargin trimNow).extentR : Int) ∧
      g.marginW ≤ (c : Int) ∧
      (c : Int) + g.marginE < ((g.maintainMargin trimNow).extentC : Int) ∧
      0 < r ∧ (r : Int) + 1 < ((g.maintainMargin trimNow).extentR : Int) ∧
      0 < c ∧ (c : Int) + 1 < ((g.maintainMargin trimNow).extentC : Int)) ∧
    (trimNow = true →
      (∃ ra ca : Nat, cellAt g.rows ra ca = true) →
      (∃ r c : Nat, cellAt (g.maintainMargin trimNow).rows r c = true ∧
        (r : Int) = g.marginN) ∧
      (∃ r c : Nat, cellAt (g.maintainMargin trimNow).rows r c = true ∧
        (r : Int) = ((g.maintainMargin trimNow).extentR : Int) - 1 - g.marginS) ∧
      (∃ r c : Nat, cellAt (g.maintainMargin trimNow).rows r c = true ∧
        (c : Int) = g.marginW) ∧
      (∃ r c : Nat, cellAt (g.maintainMargin trimNow).rows r c = true ∧
        (c : Int) = ((g.maintainMargin trimNow).extentC : Int) - 1 - g.marginE)) := by
  have hmN := hm.1
  have hmE := hm.2.1
  have hmS := hm.2.2.1
  have hmW := hm.2.2.2
  obtain ⟨hiff, hlenR, hlenC, -⟩ := maintainMargin_spec g trimNow hwf hm
  constructor
  · -- separations are at least the margins
    intro r c hcell
    obtain ⟨r0, c0, hcell0, hr, hc⟩ := (hiff r c).mp hcell
    have hT := findTop_le_of_live g hwf hcell0
    have hB := live_le_findBottom g hwf hcell0
    have hL := findLeft_le_of_live g hwf hcell0
    have hRt := live_le_findRight g hwf hcell0
    rw [hlenR, hlenC]
    rcases shiftVal_cases trimNow (g.marginN - (g.findTop : Int)) with hsN | hsN <;>
      rcases shiftVal_cases trimNow
        (g.marginS - ((g.extentR : Int) - g.findBottom g.findTop - 1)) with hsS | hsS <;>
      rcases shiftVal_cases trimNow (g.marginW - (g.findLeft : Int)) with hsW | hsW <;>
      rcases shiftVal_cases trimNow
        (g.marginE - ((g.extentC : Int) - g.findRight g.findLeft - 1)) with hsE | hsE <;>
      omega
  · -- with trimNow set, the separations are exactly the margins
    intro htrim hex
    subst htrim
    simp only [shiftVal_true] at hiff hlenR hlenC
    obtain ⟨ra, ca, hlive_a⟩ := hex
    have hwfl := hwf.1
    have hra_lt : ra < g.extentR := by
      have := lt_length_of_cellAt hlive_a
      omega
    have hca_lt : ca < g.extentC := live_lt_extentC g hwf hlive_a
    have hT_le_ra : g.findTop ≤ ra := findTop_le_of_live g hwf hlive_a
    have hra_le_B : (ra : Int) ≤ g.findBottom g.findTop :=
      live_le_findBottom g hwf hlive_a
    have hL_le_ca : g.findLeft ≤ ca := findLeft_le_of_live g hwf hlive_a
    have hca_le_Rt : (ca : Int) ≤ g.findRight g.findLeft :=
      live_le_findRight g hwf hlive_a
    -- a live cell in the top live row
    have hT_lt : g.findTop < g.extentR := by omega
    have hTdead : g.rowIsDead g.findTop = false :=
      scanFirstLive_not_dead g.rowIsDead g.extentR hT_lt
    obtain ⟨cT, hliveTop⟩ := exists_live_of_rowIsDead_false g hwf g.findTop hTdead
    -- a live cell in the bottom live row
    have hB_nonneg : 0 ≤ g.findBottom g.findTop := by omega
    have hBdead : g.rowIsDead (g.findBottom g.findTop).toNat = false := by
      have hprop : (g.findBottom g.findTop).toNat ≤ g.findTop ∨
          g.rowIsDead (g.findBottom g.findTop).toNat = false :=
        scanLastLive_prop g.rowIsDead g.findTop g.extentR hB_nonneg
      rcases hprop with hle | hdead
      · have hBeq : (g.findBottom g.findTop).toNat = g.findTop := by omega
        rw [hBeq]
        exact hTdead
      · exact hdead
    obtain ⟨cB, hliveBot⟩ :=
      exists_live_of_rowIsDead_false g hwf (g.findBottom g.findTop).toNat hBdead
    -- a live cell in the leftmost live column
    have hL_lt : g.findLeft < g.extentC := by omega
    have hLdead : g.colIsDead g.findLeft = false :=
      scanFirstLive_not_dead g.colIsDead g.extentC hL_lt
    obtain ⟨rL, hliveLeft⟩ := exists_live_of_colIsDead_false g hwf g.findLeft hLdead
    -- a live cell in the rightmost live column
    have hRt_nonneg : 0 ≤ g.findRight g.findLeft := by omega
    have hRtdead : g.colIsDead (g.findRight g.findLeft).toNat = false := by
      have hprop : (g.findRight g.findLeft).toNat ≤ g.findLeft ∨
          g.colIsDead (g.findRight g.findLeft).toNat = false :=
        scanLastLive_prop g.colIsDead g.findLeft g.extentC hRt_nonneg
      rcases hprop with hle | hdead
      · have hReq : (g.findRight g.findLeft).toNat = g.findLeft := by omega
        rw [hReq]
        exact hLdead
      · exact hdead
    obtain ⟨rR, hliveRight⟩ :=
      exists_live_of_colIsDead_false g hwf (g.findRight g.findLeft).toNat hRtdead
    -- column bounds of the four witness cells
    have hcT_L : g.findLeft ≤ cT := findLeft_le_of_live g hwf hliveTop
    have hcB_L : g.findLeft ≤ cB := findLeft_le_of_live g hwf hliveBot
    have hrL_T : g.findTop ≤ rL := findTop_le_of_live g hwf hliveLeft
    have hrR_T : g.findTop ≤ rR := findTop_le_of_live g hwf hliveRight
    have hrL_B : (rL : Int) ≤ g.findBottom g.findTop := live_le_findBottom g hwf hliveLeft
    have hrR_B : (rR : Int) ≤ g.findBottom g.findTop := live_le_findBottom g hwf hliveRight
    refine ⟨?_, ?_, ?_, ?_⟩
    · refine ⟨g.marginN.toNat,
        ((cT : Int) + (g.marginW - (g.findLeft : Int))).toNat, ?_, by omega⟩
      exact (hiff _ _).mpr ⟨g.findTop, cT, hliveTop, by omega, by omega⟩
    · refine ⟨(g.findBottom g.findTop + (g.marginN - (g.findTop : Int))).toNat,
        ((cB : Int) + (g.marginW - (g.findLeft : Int))).toNat, ?_, by rw [hlenR]; omega⟩
      exact (hiff _ _).mpr ⟨(g.findBottom g.findTop).toNat, cB, hliveBot, by omega, by omega⟩
    · refine ⟨((rL : Int) + (g.marginN - (g.findTop : Int))).toNat,
        g.marginW.toNat, ?_, by omega⟩
      exact (hiff _ _).mpr ⟨rL, g.findLeft, hliveLeft, by omega, by omega⟩
    · refine ⟨((rR : Int) + (g.marginN - (g.findTop : Int))).toNat,
        (g.findRight g.findLeft + (g.marginW - (g.findLeft : Int))).toNat, ?_,
        by rw [hlenC]; omega⟩
      exact (hiff _ _).mpr
        ⟨rR, (g.findRight g.findLeft).toNat, hliveRight, by omega, by omega⟩

/-! ### Claim theorems -/

/-- Claim C3: after every applyPoints call (hence after every seed and
every tick), for each of the four sides the live region is separated
from that grid edge by at least the configured margin — in particular no
live cell is ever in the first or last row or column of the array — and
when `trim_now` is set the separation is exactly the margin on every side,
so the separation can exceed the margin only on a call whose shrink was
deferred (`trim_now` false); it is never less than the margin. -/
theorem C3_margin_invariant (g : Grid) (points : List GridPoint) (trimNow : Bool)
    (hwf : g.wf) (hm : g.okMargins) :
    (∀ r c : Nat, cellAt (g.applyPoints points trimNow).rows r c = true →
      g.marginN ≤ (r : Int) ∧
      (r : Int) + g.marginS < ((g.applyPoints points trimNow).extentR : Int) ∧
      g.marginW ≤ (c : Int) ∧
      (c : Int) + g.marginE < ((g.applyPoints points trimNow).extentC : Int) ∧
      0 < r ∧ (r : Int) + 1 < ((g.applyPoints points trimNow).extentR : Int) ∧
      0 < c ∧ (c : Int) + 1 < ((g.applyPoints points trimNow).extentC : Int)) ∧
    (trimNow = true →
      (∃ ra ca : Nat, cellAt (points.foldl setPoint g.rows) ra ca = true) →
      (∃ r c : Nat, cellAt (g.applyPoints points trimNow).rows r c = true ∧
        (r : Int) = g.marginN) ∧
      (∃ r c : Nat, cellAt (g.applyPoints points trimNow).rows r c = true ∧
        (r : Int) = ((g.applyPoints points trimNow).extentR : Int) - 1 - g.marginS) ∧
      (∃ r c : Nat, cellAt (g.applyPoints points trimNow).rows r c = true ∧
        (c : Int) = g.marginW) ∧
      (∃ r c : Nat, cellAt (g.applyPoints points trimNow).rows r c = true ∧
        (c : Int) = ((g.applyPoints points trimNow).extentC : Int) - 1 - g.marginE)) := by
  have hwfA : Grid.wf { g with rows := points.foldl setPoint g.rows } := by
    constructor
    · show (points.foldl setPoint g.rows).length = g.extentR
      rw [foldl_setPoint_length]
      exact hwf.1
    · exact foldl_setPoint_rect points g.rows hwf.2
  exact maintainMargin_margin_bounds { g with rows := points.foldl setPoint g.rows }
    trimNow hwfA hm

/-- A concrete 2-by-2 all-dead grid with margins 1 on every side. -/
def allDeadGrid : Grid :=
  { rows := [[false, false], [false, false]], extentR := 2, extentC := 2
    marginN := 1, marginE := 1, marginS := 1, marginW := 1 }

/-- Claim C6, counterexample: on an all-dead 2-by-2 grid with margins 1,
applyPoints with an empty transition list and `trim_now = False` grows the
grid to 3-by-3 (one row appended at the south, one column at the east),
so the cell array is not unchanged. -/
theorem C6_counterexample :
    (allDeadGrid.applyPoints [] false).extentR = 3 ∧
    (allDeadGrid.applyPoints [] false).extentC = 3 ∧
    allDeadGrid.extentR = 2 ∧ allDeadGrid.extentC = 2 ∧
    (∀ r c : Nat, cellAt allDeadGrid.rows r c = false) := by
  refine ⟨by decide, by decide, rfl, rfl, ?_⟩
  intro r c
  match r, c with
  | 0, 0 => rfl
  | 0, 1 => rfl
  | 0, c + 2 => rfl
  | 1, 0 => rfl
  | 1, 1 => rfl
  | 1, c + 2 => rfl
  | r + 2, c => rfl

/-- Claim C6 (amended): for an all-dead grid whose extent dominates the
margin sums, margin maintenance keeps every cell dead but does change the
array: with `trim_now` false it appends `marginS` dead rows at the south
and `marginE` dead columns at the east (the north and west sides are
untouched because their trims are deferred), and with `trim_now` true it
additionally trims the grid down to exactly
`(marginN + marginS) x (marginW + marginE)`. -/
theorem C6_allDead_amended (g : Grid) (trimNow : Bool) (hwf : g.wf)
    (hm : g.okMargins)
    (hdead : ∀ r c : Nat, cellAt g.rows r c = false)
    (hR : g.marginN + g.marginS ≤ (g.extentR : Int))
    (hC : g.marginE + g.marginW ≤ (g.extentC : Int)) :
    (∀ r c : Nat, cellAt (g.maintainMargin trimNow).rows r c = false) ∧
    ((g.maintainMargin trimNow).extentR : Int) =
      (if trimNow then g.marginN + g.marginS else (g.extentR : Int) + g.marginS) ∧
    ((g.maintainMargin trimNow).extentC : Int) =
      (if trimNow then g.marginW + g.marginE else (g.extentC : Int) + g.marginE) := by
  have hmN := hm.1
  have hmE := hm.2.1
  have hmS := hm.2.2.1
  have hmW := hm.2.2.2
  have hT : g.findTop = g.extentR := by
    have hnone : (List.range g.extentR).find? (fun i => ! g.rowIsDead i) = none :=
      List.find?_eq_none.mpr (fun i _ => by
        simp [(rowIsDead_iff g hwf i).mpr (fun c => hdead i c)])
    unfold Grid.findTop scanFirstLive
    rw [hnone]
  have hB : g.findBottom g.findTop = (g.extentR : Int) - 1 := by
    rw [hT]
    exact scanLastLive_last g.rowIsDead g.extentR g.extentR (by omega) (by omega)
  have hL : g.findLeft = g.extentC := by
    have hnone : (List.range g.extentC).find? (fun i => ! g.colIsDead i) = none :=
      List.find?_eq_none.mpr (fun i _ => by
        simp [(colIsDead_iff g hwf i).mpr (fun r => hdead r i)])
    unfold Grid.findLeft scanFirstLive
    rw [hnone]
  have hRt : g.findRight g.findLeft = (g.extentC : Int) - 1 := by
    rw [hL]
    exact scanLastLive_last g.colIsDead g.extentC g.extentC (by omega) (by omega)
  obtain ⟨hiff, hlenR, hlenC, -⟩ := maintainMargin_spec g trimNow hwf hm
  refine ⟨?_, ?_, ?_⟩
  · intro r c
    by_contra hlive
    have htrue : cellAt (g.maintainMargin trimNow).rows r c = true := by
      cases hval : cellAt (g.maintainMargin trimNow).rows r c
      · exact absurd hval hlive
      · rfl
    obtain ⟨r0, c0, hcell0, -, -⟩ := (hiff r c).mp htrue
    rw [hdead r0 c0] at hcell0
    exact Bool.false_ne_true hcell0
  · rw [hlenR, hB, hT]
    cases trimNow
    · simp only [Bool.false_eq_true, if_false]
      have h1 : shiftVal false (g.marginN - (g.extentR : Int)) = 0 := by
        unfold shiftVal
        rw [if_neg (by omega), if_neg (by simp)]
      have h2 : shiftVal false
          (g.marginS - ((g.extentR : Int) - ((g.extentR : Int) - 1) - 1)) = g.marginS := by
        unfold shiftVal
        rw [if_pos (by omega)]
        omega
      rw [h1, h2]
      omega
    · simp only [if_true]
      rw [shiftVal_true, shiftVal_true]
      omega
  · rw [hlenC, hRt, hL]
    cases trimNow
    · simp only [Bool.false_eq_true, if_false]
      have h1 : shiftVal false (g.marginW - (g.extentC : Int)) = 0 := by
        unfold shiftVal
        rw [if_neg (by omega), if_neg (by simp)]
      have h2 : shiftVal false
          (g.marginE - ((g.extentC : Int) - ((g.extentC : Int) - 1) - 1)) = g.marginE := by
        unfold shiftVal
        rw [if_pos (by omega)]
        omega
      rw [h1, h2]
      omega
    · simp only [if_true]
      rw [shiftVal_true, shiftVal_true]
      omega

/-! ### The transition list of one tick -/

/-- The standard Game-of-Life rule: a live cell survives exactly when its
neighbor count is in [2,3]; a dead cell is born exactly on count 3. -/
def golRule (alive : Bool) (n : Nat) : Bool :=
  if alive then decide (2 ≤ n ∧ n ≤ 3) else decide (n = 3)

/-- The single-cell decision of _determineTransitions: a death point, a
birth point, or nothing. -/
def transitionAt (g : Grid) (rownum : Nat) (neighbors : List Nat)
    (colnum : Nat) : Option GridPoint :=
  let ncount := neighbors.getD colnum 0
  if ¬ (2 ≤ ncount ∧ ncount ≤ 3) ∧ g.isCellAlive rownum colnum then
    some { row := (rownum : Int), col := (colnum : Int), alive := false }
  else if ncount = 3 ∧ ¬ g.isCellAlive rownum colnum then
    some { row := (rownum : Int), col := (colnum : Int), alive := true }
  else none

theorem foldl_filterMap_generic {α β : Type} (f : α → Option β)
    (F : List β → α → List β)
    (hF : ∀ acc x, F acc x = match f x with | some y => acc ++ [y] | none => acc) :
    ∀ (l : List α) (acc : List β), l.foldl F acc = acc ++ l.filterMap f := by
  intro l
  induction l with
  | nil => intro acc; simp
  | cons x l ih =>
    intro acc
    rw [List.foldl_cons, List.filterMap_cons, hF acc x]
    cases hx : f x with
    | none => rw [ih acc]
    | some y =>
      rw [ih (acc ++ [y])]
      simp

theorem determineTransitions_eq (g : Grid) (rownum : Nat) (neighbors : List Nat) :
    determineTransitions g rownum neighbors =
      (List.range neighbors.length).filterMap (transitionAt g rownum neighbors) := by
  have h := foldl_filterMap_generic (transitionAt g rownum neighbors)
    (fun census colnum =>
      let ncount := neighbors.getD colnum 0
      if ¬ (2 ≤ ncount ∧ ncount ≤ 3) ∧ g.isCellAlive rownum colnum then
        census ++ [{ row := (rownum : Int), col := (colnum : Int), alive := false }]
      else if ncount = 3 ∧ ¬ g.isCellAlive rownum colnum then
        census ++ [{ row := (rownum : Int), col := (colnum : Int), alive := true }]
      else census)
    (fun acc x => by
      unfold transitionAt
      dsimp only
      by_cases hA : ¬ (2 ≤ neighbors.getD x 0 ∧ neighbors.getD x 0 ≤ 3) ∧
          g.isCellAlive rownum x = true
      · rw [if_pos hA, if_pos hA]
      · rw [if_neg hA, if_neg hA]
        by_cases hB : neighbors.getD x 0 = 3 ∧ ¬ g.isCellAlive rownum x = true
        · rw [if_pos hB, if_pos hB]
        · rw [if_neg hB, if_neg hB])
    (List.range neighbors.length) []
  rw [List.nil_append] at h
  exact h

/-- The whole transition list collected by one tick, row by row. -/
def tickTransitions (g : Grid) : List GridPoint :=
  (List.range g.extentR).flatMap
    (fun rownum => determineTransitions g rownum (g.countNeighborsForRow rownum))

theorem foldl_flatMap_generic {α β : Type} (h : α → List β) (F : List β → α → List β)
    (hF : ∀ acc x, F acc x = if (h x).isEmpty then acc else acc ++ h x) :
    ∀ (l : List α) (acc : List β), l.foldl F acc = acc ++ l.flatMap h := by
  intro l
  induction l with
  | nil => intro acc; simp
  | cons x l ih =>
    intro acc
    rw [List.foldl_cons, List.flatMap_cons, hF acc x]
    by_cases hx : (h x).isEmpty
    · rw [if_pos hx, ih acc, List.isEmpty_iff.mp hx]
      simp
    · rw [if_neg hx, ih (acc ++ h x), List.append_assoc]

theorem tick_eq (s : Game) :
    tick s = { g := s.g.applyPoints (tickTransitions s.g)
                  ((s.tickCount != 0) && (s.tickCount % 5 == 0))
               tickCount := s.tickCount + 1 } := by
  have htr : (List.range s.g.extentR).foldl
      (fun acc rownum =>
        let rowCensus := determineTransitions s.g rownum (s.g.countNeighborsForRow rownum)
        if rowCensus.isEmpty then acc else acc ++ rowCensus) [] =
      tickTransitions s.g := by
    have h := foldl_flatMap_generic
      (fun rownum => determineTransitions s.g rownum (s.g.countNeighborsForRow rownum))
      (fun acc rownum =>
        let rowCensus := determineTransitions s.g rownum (s.g.countNeighborsForRow rownum)
        if rowCensus.isEmpty then acc else acc ++ rowCensus)
      (fun acc x => rfl)
      (List.range s.g.extentR) []
    rw [List.nil_append] at h
    exact h
  simp only [tick]
  rw [htr]

theorem transitionAt_some_spec {g : Grid} {rownum : Nat} {ns : List Nat}
    {colnum : Nat} {p : GridPoint}
    (h : transitionAt g rownum ns colnum = some p) :
    p.row = (rownum : Int) ∧ p.col = (colnum : Int) ∧
    (p.alive = false →
      ¬ (2 ≤ ns.getD colnum 0 ∧ ns.getD colnum 0 ≤ 3) ∧
        g.isCellAlive rownum colnum = true) ∧
    (p.alive = true →
      ns.getD colnum 0 = 3 ∧ g.isCellAlive rownum colnum = false) := by
  unfold transitionAt at h
  dsimp only at h
  split at h
  · next hA =>
    cases h
    exact ⟨rfl, rfl, fun _ => hA, fun hfalse => by simp at hfalse⟩
  · split at h
    · next hB =>
      cases h
      refine ⟨rfl, rfl, fun htrue => by simp at htrue, fun _ => ⟨hB.1, ?_⟩⟩
      cases hval : g.isCellAlive rownum colnum
      · rfl
      · exact absurd hval hB.2
    · exact absurd h (by simp)

theorem transitionAt_death (g : Grid) (rownum : Nat) (ns : List Nat) (colnum : Nat)
    (hA : ¬ (2 ≤ ns.getD colnum 0 ∧ ns.getD colnum 0 ≤ 3))
    (ha : g.isCellAlive rownum colnum = true) :
    transitionAt g rownum ns colnum =
      some { row := (rownum : Int), col := (colnum : Int), alive := false } := by
  unfold transitionAt
  dsimp only
  rw [if_pos ⟨hA, ha⟩]

theorem transitionAt_birth (g : Grid) (rownum : Nat) (ns : List Nat) (colnum : Nat)
    (hB : ns.getD colnum 0 = 3) (ha : g.isCellAlive rownum colnum = false) :
    transitionAt g rownum ns colnum =
      some { row := (rownum : Int), col := (colnum : Int), alive := true } := by
  unfold transitionAt
  dsimp only
  rw [if_neg (by simp [ha]), if_pos ⟨hB, by simp [ha]⟩]

theorem transitionAt_none (g : Grid) (rownum : Nat) (ns : List Nat) (colnum : Nat)
    (hA : ¬ (¬ (2 ≤ ns.getD colnum 0 ∧ ns.getD colnum 0 ≤ 3) ∧
      g.isCellAlive rownum colnum = true))
    (hB : ¬ (ns.getD colnum 0 = 3 ∧ g.isCellAlive rownum colnum = false)) :
    transitionAt g rownum ns colnum = none := by
  unfold transitionAt
  dsimp only
  rw [if_neg hA, if_neg (by
    intro hcon
    exact hB ⟨hcon.1, by cases hval : g.isCellAlive rownum colnum with
      | false => rfl
      | true => exact absurd hval hcon.2⟩)]

theorem mem_determineTransitions {g : Grid} {rownum : Nat} {ns : List Nat}
    {p : GridPoint} :
    p ∈ determineTransitions g rownum ns ↔
      ∃ cn, cn < ns.length ∧ transitionAt g rownum ns cn = some p := by
  rw [determineTransitions_eq, List.mem_filterMap]
  constructor
  · rintro ⟨cn, hcn, ht⟩
    exact ⟨cn, List.mem_range.mp hcn, ht⟩
  · rintro ⟨cn, hcn, ht⟩
    exact ⟨cn, List.mem_range.mpr hcn, ht⟩

theorem mem_tickTransitions {g : Grid} {p : GridPoint} :
    p ∈ tickTransitions g ↔
      ∃ rn, rn < g.extentR ∧ ∃ cn, cn < (g.countNeighborsForRow rn).length ∧
        transitionAt g rn (g.countNeighborsForRow rn) cn = some p := by
  unfold tickTransitions
  rw [List.mem_flatMap]
  constructor
  · rintro ⟨rn, hrn, hmem⟩
    obtain ⟨cn, hcn, ht⟩ := mem_determineTransitions.mp hmem
    exact ⟨rn, List.mem_range.mp hrn, cn, hcn, ht⟩
  · rintro ⟨rn, hrn, cn, hcn, ht⟩
    exact ⟨rn, List.mem_range.mpr hrn, mem_determineTransitions.mpr ⟨cn, hcn, ht⟩⟩

theorem countNeighborsForRow_length (g : Grid) (rownum : Nat) :
    (g.countNeighborsForRow rownum).length = g.extentC := by
  unfold Grid.countNeighborsForRow
  rw [List.length_map, List.length_range]

theorem countNeighborsForRow_getD (g : Grid) (rownum colnum : Nat)
    (h : colnum < g.extentC) :
    (g.countNeighborsForRow rownum).getD colnum 0 =
      g.countNeighborsCell rownum colnum := by
  unfold Grid.countNeighborsForRow
  rw [List.getD_eq_getElem?_getD, List.getElem?_map, List.getElem?_range h]
  rfl

theorem tickTransitions_uniq (g : Grid) :
    ∀ p ∈ tickTransitions g, ∀ q ∈ tickTransitions g,
      p.row = q.row → p.col = q.col → p = q := by
  intro p hp q hq hrow hcol
  obtain ⟨rp, hrp, cp, hcp, htp⟩ := mem_tickTransitions.mp hp
  obtain ⟨rq, hrq, cq, hcq, htq⟩ := mem_tickTransitions.mp hq
  obtain ⟨hprow, hpcol, -, -⟩ := transitionAt_some_spec htp
  obtain ⟨hqrow, hqcol, -, -⟩ := transitionAt_some_spec htq
  have hre : rp = rq := by omega
  have hce : cp = cq := by omega
  rw [hre, hce] at htp
  rw [htp] at htq
  exact Option.some_inj.mp htq

theorem tickTransitions_inRange (g : Grid) (hwf : g.wf) :
    ∀ p ∈ tickTransitions g, 0 ≤ p.row ∧ p.row < (g.rows.length : Int) ∧
      0 ≤ p.col ∧ p.col < (g.extentC : Int) := by
  intro p hp
  obtain ⟨rn, hrn, cn, hcn, ht⟩ := mem_tickTransitions.mp hp
  obtain ⟨hprow, hpcol, -, -⟩ := transitionAt_some_spec ht
  rw [countNeighborsForRow_length] at hcn
  have hlen := hwf.1
  omega

theorem cellAt_setPoint {C : Nat} (rows : List (List Bool))
    (hrect : ∀ row ∈ rows, row.length = C) (p : GridPoint)
    (hprow : 0 ≤ p.row ∧ p.row < (rows.length : Int))
    (hpcol : 0 ≤ p.col ∧ p.col < (C : Int)) (r c : Nat) :
    cellAt (setPoint rows p) r c =
      if p.row = (r : Int) ∧ p.col = (c : Int) then p.alive
      else cellAt rows r c := by
  have hrn_lt : p.row.toNat < rows.length := by omega
  have h1 : pyIdx rows.length p.row = some p.row.toNat := by
    unfold pyIdx
    rw [if_pos ⟨hprow.1, hprow.2⟩]
  have hmem : rows.getD p.row.toNat [] ∈ rows := by
    rw [List.getD_eq_getElem _ _ hrn_lt]
    exact List.getElem_mem hrn_lt
  have hlen : (rows.getD p.row.toNat []).length = C := hrect _ hmem
  have hcn_lt : p.col.toNat < C := by omega
  have h2 : pyIdx (rows.getD p.row.toNat []).length p.col = some p.col.toNat := by
    rw [hlen]
    unfold pyIdx
    rw [if_pos ⟨hpcol.1, hpcol.2⟩]
  unfold setPoint
  rw [h1]
  dsimp only
  rw [h2]
  dsimp only
  by_cases hsame : p.row = (r : Int) ∧ p.col = (c : Int)
  · rw [if_pos hsame]
    have hre : p.row.toNat = r := by omega
    have hce : p.col.toNat = c := by omega
    rw [cellAt_eq_getElem, ← hre, ← hce]
    rw [List.getElem?_set_eq_of_lt _ hrn_lt]
    simp only [Option.getD_some]
    rw [List.getElem?_set_eq_of_lt _ (by omega)]
    rfl
  · rw [if_neg hsame]
    by_cases hrow_eq : p.row.toNat = r
    · have hcol_ne : p.col.toNat ≠ c := by
        intro hce
        exact hsame ⟨by omega, by omega⟩
      rw [cellAt_eq_getElem, cellAt_eq_getElem, ← hrow_eq]
      rw [List.getElem?_set_eq_of_lt _ hrn_lt]
      simp only [Option.getD_some]
      rw [List.getElem?_set_ne hcol_ne]
      rw [List.getD_eq_getElem?_getD]
    · rw [cellAt_eq_getElem, cellAt_eq_getElem]
      rw [List.getElem?_set_ne hrow_eq]

theorem find?_cons_eq_some_of_pred {α : Type} (pred : α → Bool) (a : α)
    (l : List α) (h : pred a = true) : (a :: l).find? pred = some a :=
  List.find?_cons_of_pos l h

theorem find?_cons_eq_of_pred_false {α : Type} (pred : α → Bool) (a : α)
    (l : List α) (h : pred a = false) : (a :: l).find? pred = l.find? pred :=
  List.find?_cons_of_neg l (by simp [h])

theorem cellAt_foldl_setPoint {C : Nat} :
    ∀ (ts : List GridPoint) (rows : List (List Bool)),
      (∀ row ∈ rows, row.length = C) →
      (∀ p ∈ ts, 0 ≤ p.row ∧ p.row < (rows.length : Int) ∧
        0 ≤ p.col ∧ p.col < (C : Int)) →
      (∀ p ∈ ts, ∀ q ∈ ts, p.row = q.row → p.col = q.col → p = q) →
      ∀ r c : Nat,
        cellAt (ts.foldl setPoint rows) r c =
          (match ts.find? (fun p => p.row == (r : Int) && p.col == (c : Int)) with
           | some p => p.alive
           | none => cellAt rows r c) := by
  intro ts
  induction ts with
  | nil => intro rows _ _ _ r c; rfl
  | cons p ts ih =>
    intro rows hrect hin huniq r c
    have hp_in := hin p (List.mem_cons_self p ts)
    have hrect1 : ∀ row ∈ setPoint rows p, row.length = C := setPoint_rect hrect p
    have hin1 : ∀ q ∈ ts, 0 ≤ q.row ∧ q.row < ((setPoint rows p).length : Int) ∧
        0 ≤ q.col ∧ q.col < (C : Int) := by
      intro q hq
      have := hin q (List.mem_cons_of_mem p hq)
      rw [setPoint_length]
      exact this
    have huniq1 : ∀ a ∈ ts, ∀ b ∈ ts, a.row = b.row → a.col = b.col → a = b :=
      fun a ha b hb => huniq a (List.mem_cons_of_mem p ha) b (List.mem_cons_of_mem p hb)
    rw [List.foldl_cons, ih (setPoint rows p) hrect1 hin1 huniq1 r c]
    by_cases hpred : (p.row == (r : Int) && p.col == (c : Int)) = true
    · rw [find?_cons_eq_some_of_pred
        (fun q => q.row == (r : Int) && q.col == (c : Int)) p ts hpred]
      have hpe : p.row = (r : Int) ∧ p.col = (c : Int) := by
        simp only [Bool.and_eq_true, beq_iff_eq] at hpred
        exact hpred
      cases hfind : ts.find? (fun q => q.row == (r : Int) && q.col == (c : Int)) with
      | some q =>
        dsimp only
        have hq_mem := List.mem_of_find?_eq_some hfind
        have hq_pred := List.find?_some hfind
        have hqe : q.row = (r : Int) ∧ q.col = (c : Int) := by
          simp only [Bool.and_eq_true, beq_iff_eq] at hq_pred
          exact hq_pred
        have hpq : p = q := huniq p (List.mem_cons_self p ts) q
          (List.mem_cons_of_mem p hq_mem) (by omega) (by omega)
        rw [hpq]
      | none =>
        dsimp only
        rw [cellAt_setPoint rows hrect p ⟨hp_in.1, hp_in.2.1⟩
          ⟨hp_in.2.2.1, hp_in.2.2.2⟩ r c, if_pos hpe]
    · rw [find?_cons_eq_of_pred_false
        (fun q => q.row == (r : Int) && q.col == (c : Int)) p ts
        (Bool.not_eq_true _ ▸ hpred)]
      cases hfind : ts.find? (fun q => q.row == (r : Int) && q.col == (c : Int)) with
      | some q => rfl
      | none =>
        dsimp only
        rw [cellAt_setPoint rows hrect p ⟨hp_in.1, hp_in.2.1⟩
          ⟨hp_in.2.2.1, hp_in.2.2.2⟩ r c]
        rw [if_neg (by
          intro hcon
          apply hpred
          simp only [Bool.and_eq_true, beq_iff_eq]
          exact hcon)]

theorem tickTransitions_find? (g : Grid) (r c : Nat)
    (hr : r < g.extentR) (hc : c < g.extentC) :
    (tickTransitions g).find? (fun p => p.row == (r : Int) && p.col == (c : Int)) =
      transitionAt g r (g.countNeighborsForRow r) c := by
  cases ht : transitionAt g r (g.countNeighborsForRow r) c with
  | some q =>
    have hq_spec := transitionAt_some_spec ht
    have hmem : q ∈ tickTransitions g := mem_tickTransitions.mpr
      ⟨r, hr, c, by rw [countNeighborsForRow_length]; exact hc, ht⟩
    have hpredq : (q.row == (r : Int) && q.col == (c : Int)) = true := by
      simp only [Bool.and_eq_true, beq_iff_eq]
      exact ⟨hq_spec.1, hq_spec.2.1⟩
    cases hfind : (tickTransitions g).find?
        (fun p => p.row == (r : Int) && p.col == (c : Int)) with
    | none =>
      have := List.find?_eq_none.mp hfind q hmem
      exact absurd hpredq this
    | some p2 =>
      have hp2_mem := List.mem_of_find?_eq_some hfind
      have hp2_pred := List.find?_some hfind
      have hp2e : p2.row = (r : Int) ∧ p2.col = (c : Int) := by
        simp only [Bool.and_eq_true, beq_iff_eq] at hp2_pred
        exact hp2_pred
      have hpq : p2 = q := tickTransitions_uniq g p2 hp2_mem q hmem
        (by rw [hp2e.1, hq_spec.1]) (by rw [hp2e.2, hq_spec.2.1])
      rw [hpq]
  | none =>
    apply List.find?_eq_none.mpr
    intro p hp hpred
    simp only [Bool.and_eq_true, beq_iff_eq] at hpred
    obtain ⟨rn, hrn, cn, hcn, htp⟩ := mem_tickTransitions.mp hp
    obtain ⟨hprow, hpcol, -, -⟩ := transitionAt_some_spec htp
    have hre : rn = r := by omega
    have hce : cn = c := by omega
    rw [hre, hce] at htp
    rw [ht] at htp
    exact absurd htp (by simp)

theorem cellAt_tickApply (g : Grid) (hwf : g.wf) (r c : Nat)
    (hr : r < g.extentR) (hc : c < g.extentC) :
    cellAt ((tickTransitions g).foldl setPoint g.rows) r c =
      golRule (g.isCellAlive r c) (g.countNeighborsCell r c) := by
  have hin : ∀ p ∈ tickTransitions g, 0 ≤ p.row ∧ p.row < (g.rows.length : Int) ∧
      0 ≤ p.col ∧ p.col < (g.extentC : Int) := tickTransitions_inRange g hwf
  rw [cellAt_foldl_setPoint (tickTransitions g) g.rows hwf.2 hin
    (tickTransitions_uniq g) r c]
  rw [tickTransitions_find? g r c hr hc]
  cases ht : transitionAt g r (g.countNeighborsForRow r) c with
  | some q =>
    dsimp only
    obtain ⟨-, -, hdeath, hbirth⟩ := transitionAt_some_spec ht
    rw [countNeighborsForRow_getD g r c hc] at hdeath hbirth
    cases halive : q.alive with
    | false =>
      obtain ⟨hA, ha⟩ := hdeath halive
      rw [ha]
      unfold golRule
      rw [if_pos rfl]
      rw [decide_eq_false hA]
    | true =>
      obtain ⟨h3, ha⟩ := hbirth halive
      rw [ha]
      unfold golRule
      rw [if_neg (by simp)]
      rw [decide_eq_true h3]
  | none =>
    dsimp only
    unfold transitionAt at ht
    dsimp only at ht
    split at ht
    · exact absurd ht (by simp)
    · split at ht
      · exact absurd ht (by simp)
      · next hA hB =>
        rw [countNeighborsForRow_getD g r c hc] at hA hB
        have hcell : cellAt g.rows r c = g.isCellAlive r c := rfl
        cases hval : g.isCellAlive r c with
        | true =>
          have h23 : 2 ≤ g.countNeighborsCell r c ∧ g.countNeighborsCell r c ≤ 3 := by
            by_contra hcon
            exact hA ⟨hcon, hval⟩
          rw [hcell, hval]
          unfold golRule
          rw [if_pos rfl, decide_eq_true h23]
        | false =>
          have h3 : ¬ g.countNeighborsCell r c = 3 := fun hcon => hB ⟨hcon, by simp [hval]⟩
          rw [hcell, hval]
          unfold golRule
          rw [if_neg (by simp), decide_eq_false h3]

/-! ### The mathematical Moore-neighborhood count -/

/-- Modelled from the spec: cell lookup with out-of-bounds definitionally
dead, with no wraparound of any kind. -/
def getCellSpec (g : Grid) (r c : Int) : Bool :=
  if 0 ≤ r ∧ r < (g.extentR : Int) ∧ 0 ≤ c ∧ c < (g.extentC : Int) then
    cellAt g.rows r.toNat c.toNat
  else false

/-- Modelled from the spec: the true Moore-neighborhood live-neighbor
count of a cell, dead outside the grid. -/
def mooreCount (g : Grid) (r0 c0 : Nat) : Nat :=
  (directions.filter
    (fun s => getCellSpec g (s.1 + (r0 : Int)) (s.2 + (c0 : Int)))).length

theorem pyIdx_in {n : Nat} {i : Int} (h : 0 ≤ i ∧ i < (n : Int)) :
    pyIdx n i = some i.toNat := by
  unfold pyIdx
  rw [if_pos h]

theorem pyIdx_wrap {n : Nat} {i : Int} (h1 : -(n : Int) ≤ i) (h2 : i < 0) :
    pyIdx n i = some (i + n).toNat := by
  unfold pyIdx
  rw [if_neg (by omega), if_pos ⟨h1, h2⟩]

theorem pyIdx_oob {n : Nat} {i : Int} (h1 : ¬ (0 ≤ i ∧ i < (n : Int)))
    (h2 : ¬ (-(n : Int) ≤ i ∧ i < 0)) : pyIdx n i = none := by
  unfold pyIdx
  rw [if_neg h1, if_neg h2]

theorem getCell_eq_spec_near (g : Grid) (hwf : g.wf)
    (hlastRow : g.rowIsDead (g.extentR - 1) = true)
    (hlastCol : g.colIsDead (g.extentC - 1) = true)
    (hRpos : 1 ≤ g.extentR) (hCpos : 1 ≤ g.extentC)
    (r c : Int) (hr1 : -1 ≤ r) (hr2 : r ≤ (g.extentR : Int))
    (hc1 : -1 ≤ c) (hc2 : c ≤ (g.extentC : Int)) :
    g.getCell r c = getCellSpec g r c := by
  have hlen := hwf.1
  have hrowlen : ∀ rn : Nat, rn < g.rows.length →
      (g.rows.getD rn []).length = g.extentC := by
    intro rn hrn
    apply hwf.2
    rw [List.getD_eq_getElem _ _ hrn]
    exact List.getElem_mem hrn
  have hlastRowDead := (rowIsDead_iff g hwf (g.extentR - 1)).mp hlastRow
  have hlastColDead := (colIsDead_iff g hwf (g.extentC - 1)).mp hlastCol
  unfold Grid.getCell getCellSpec
  by_cases hrneg : r = -1
  · -- the row index wraps to the last (fully dead) row
    subst hrneg
    rw [pyIdx_wrap (by omega) (by omega)]
    dsimp only
    rw [if_neg (by omega)]
    have hrowval : (-1 + (g.rows.length : Int)).toNat = g.extentR - 1 := by omega
    rw [hrowval]
    cases hcol : pyIdx (g.rows.getD (g.extentR - 1) []).length c with
    | none => rfl
    | some cn =>
      dsimp only
      have : (g.rows.getD (g.extentR - 1) []).getD cn false =
          cellAt g.rows (g.extentR - 1) cn := rfl
      rw [this, hlastRowDead cn]
  · by_cases hrR : r = (g.extentR : Int)
    · -- the row index is just past the end: IndexError, a dead cell
      rw [pyIdx_oob (by omega) (by omega)]
      rw [if_neg (by omega)]
    · -- the row index is in range
      have hrin : 0 ≤ r ∧ r < (g.rows.length : Int) := by omega
      rw [pyIdx_in hrin]
      dsimp only
      have hrn_lt : r.toNat < g.rows.length := by omega
      have hwid := hrowlen r.toNat hrn_lt
      by_cases hcneg : c = -1
      · -- the column index wraps to the last (fully dead) column
        subst hcneg
        rw [hwid, pyIdx_wrap (by omega) (by omega)]
        dsimp only
        rw [if_neg (by omega)]
        have hcolval : (-1 + (g.extentC : Int)).toNat = g.extentC - 1 := by omega
        rw [hcolval]
        have : (g.rows.getD r.toNat []).getD (g.extentC - 1) false =
            cellAt g.rows r.toNat (g.extentC - 1) := rfl
        rw [this, hlastColDead r.toNat]
      · by_cases hcC : c = (g.extentC : Int)
        · rw [hwid, pyIdx_oob (by omega) (by omega)]
          rw [if_neg (by omega)]
        · have hcin : 0 ≤ c ∧ c < (g.extentC : Int) := by omega
          rw [hwid, pyIdx_in (by omega)]
          dsimp only
          rw [if_pos (by omega)]
          rfl

theorem countNeighbors_eq_moore (g : Grid) (hwf : g.wf) (r c : Nat)
    (hr : r < g.extentR) (hc : c < g.extentC)
    (hlastRow : g.rowIsDead (g.extentR - 1) = true)
    (hlastCol : g.colIsDead (g.extentC - 1) = true) :
    g.countNeighborsCell r c = mooreCount g r c := by
  unfold Grid.countNeighborsCell mooreCount
  congr 1
  apply List.filter_congr
  intro s hs
  have hsb : (-1 ≤ s.1 ∧ s.1 ≤ 1) ∧ (-1 ≤ s.2 ∧ s.2 ≤ 1) := by
    simp only [directions, List.mem_cons, List.not_mem_nil, or_false] at hs
    rcases hs with rfl | rfl | rfl | rfl | rfl | rfl | rfl | rfl <;> norm_num
  rw [getCell_eq_spec_near g hwf hlastRow hlastCol (by omega) (by omega)
    (s.1 + (r : Int)) (s.2 + (c : Int)) (by omega) (by omega) (by omega) (by omega)]

/-- Claim C1: for every well-formed grid and every cell of the current
extent, the tick transition list contains a death transition exactly for
the live cells whose live-neighbor count lies outside [2,3] and a birth
transition exactly for the dead cells whose count is exactly 3; any
transition for the cell is of one of these two forms; after applying the
whole transition list the cell's new state is the standard Game-of-Life
rule applied to its pre-tick state and pre-tick count; and whenever the
last row and column of the array are fully dead (which the margin
invariant guarantees for every grid the program ticks), the count used is
the true Moore-neighborhood live-neighbor count. -/
theorem C1_transition_rules (g : Grid) (hwf : g.wf) (r c : Nat)
    (hr : r < g.extentR) (hc : c < g.extentC) :
    (({ row := (r : Int), col := (c : Int), alive := false } : GridPoint) ∈
        tickTransitions g ↔
      g.isCellAlive r c = true ∧
        ¬ (2 ≤ g.countNeighborsCell r c ∧ g.countNeighborsCell r c ≤ 3)) ∧
    (({ row := (r : Int), col := (c : Int), alive := true } : GridPoint) ∈
        tickTransitions g ↔
      g.isCellAlive r c = false ∧ g.countNeighborsCell r c = 3) ∧
    (∀ b : Bool,
      ({ row := (r : Int), col := (c : Int), alive := b } : GridPoint) ∈
          tickTransitions g →
        (b = false ∧ g.isCellAlive r c = true ∧
          ¬ (2 ≤ g.countNeighborsCell r c ∧ g.countNeighborsCell r c ≤ 3)) ∨
        (b = true ∧ g.isCellAlive r c = false ∧ g.countNeighborsCell r c = 3)) ∧
    cellAt ((tickTransitions g).foldl setPoint g.rows) r c =
      golRule (g.isCellAlive r c) (g.countNeighborsCell r c) ∧
    ((g.rowIsDead (g.extentR - 1) = true ∧ g.colIsDead (g.extentC - 1) = true) →
      g.countNeighborsCell r c = mooreCount g r c) := by
  have hmem_at : ∀ b : Bool,
      ({ row := (r : Int), col := (c : Int), alive := b } : GridPoint) ∈
          tickTransitions g ↔
        transitionAt g r (g.countNeighborsForRow r) c =
          some { row := (r : Int), col := (c : Int), alive := b } := by
    intro b
    constructor
    · intro hmem
      obtain ⟨rn, hrn, cn, hcn, ht⟩ := mem_tickTransitions.mp hmem
      obtain ⟨hprow, hpcol, -, -⟩ := transitionAt_some_spec ht
      have hre : rn = r := by
        simp only at hprow
        omega
      have hce : cn = c := by
        simp only at hpcol
        omega
      rw [hre, hce] at ht
      exact ht
    · intro ht
      exact mem_tickTransitions.mpr
        ⟨r, hr, c, by rw [countNeighborsForRow_length]; exact hc, ht⟩
  refine ⟨?_, ?_, ?_, cellAt_tickApply g hwf r c hr hc, ?_⟩
  · rw [hmem_at false]
    constructor
    · intro ht
      obtain ⟨-, -, hdeath, -⟩ := transitionAt_some_spec ht
      have := hdeath rfl
      rw [countNeighborsForRow_getD g r c hc] at this
      exact ⟨this.2, this.1⟩
    · rintro ⟨ha, hA⟩
      have := transitionAt_death g r (g.countNeighborsForRow r) c
        (by rw [countNeighborsForRow_getD g r c hc]; exact hA) ha
      exact this
  · rw [hmem_at true]
    constructor
    · intro ht
      obtain ⟨-, -, -, hbirth⟩ := transitionAt_some_spec ht
      have := hbirth rfl
      rw [countNeighborsForRow_getD g r c hc] at this
      exact ⟨this.2, this.1⟩
    · rintro ⟨ha, h3⟩
      exact transitionAt_birth g r (g.countNeighborsForRow r) c
        (by rw [countNeighborsForRow_getD g r c hc]; exact h3) ha
  · intro b hmem
    obtain ⟨-, -, hdeath, hbirth⟩ := transitionAt_some_spec ((hmem_at b).mp hmem)
    rw [countNeighborsForRow_getD g r c hc] at hdeath hbirth
    cases b with
    | false =>
      obtain ⟨hA, ha⟩ := hdeath rfl
      exact Or.inl ⟨rfl, ha, hA⟩
    | true =>
      obtain ⟨h3, ha⟩ := hbirth rfl
      exact Or.inr ⟨rfl, ha, h3⟩
  · intro ⟨hlastRow, hlastCol⟩
    exact countNeighbors_eq_moore g hwf r c hr hc hlastRow hlastCol

/-- Modelled from the spec: the reference implementation that snapshots
the grid, computes every neighbor count from the snapshot, and only then
writes the next generation — each cell of the result is the standard rule
applied to the snapshot. -/
def snapshotStepSpec (g : Grid) : List (List Bool) :=
  (List.range g.extentR).map (fun r =>
    (List.range g.extentC).map (fun c =>
      golRule (g.isCellAlive r c) (g.countNeighborsCell r c)))

/-- Claim C2: a tick computes every neighbor count against the pre-tick
grid before any cell is written, so the array obtained by applying the
whole transition list (before margin maintenance) is exactly the
reference snapshot-then-mutate next generation, and the post-tick grid is
a function of the pre-tick grid alone: it is margin maintenance applied
to that reference array. -/
theorem C2_snapshot_semantics (s : Game) (hwf : s.g.wf) :
    (tickTransitions s.g).foldl setPoint s.g.rows = snapshotStepSpec s.g ∧
    (tick s).g = Grid.maintainMargin
      { s.g with rows := snapshotStepSpec s.g }
      ((s.tickCount != 0) && (s.tickCount % 5 == 0)) := by
  have hmain : (tickTransitions s.g).foldl setPoint s.g.rows = snapshotStepSpec s.g := by
    apply List.ext_getElem
    · rw [foldl_setPoint_length, hwf.1]
      unfold snapshotStepSpec
      rw [List.length_map, List.length_range]
    · intro i h1 h2
      have hiR : i < s.g.extentR := by
        have := h1
        rw [foldl_setPoint_length, hwf.1] at this
        exact this
      apply List.ext_getElem
      · have hmem : ((tickTransitions s.g).foldl setPoint s.g.rows)[i] ∈
            (tickTransitions s.g).foldl setPoint s.g.rows := List.getElem_mem h1
        rw [foldl_setPoint_rect (tickTransitions s.g) s.g.rows hwf.2 _ hmem]
        unfold snapshotStepSpec
        rw [List.getElem_map, List.length_map, List.length_range]
      · intro j hj1 hj2
        have hjC : j < s.g.extentC := by
          have hmem : ((tickTransitions s.g).foldl setPoint s.g.rows)[i] ∈
              (tickTransitions s.g).foldl setPoint s.g.rows := List.getElem_mem h1
          have := foldl_setPoint_rect (tickTransitions s.g) s.g.rows hwf.2 _ hmem
          omega
        have hcell : ((tickTransitions s.g).foldl setPoint s.g.rows)[i][j] =
            cellAt ((tickTransitions s.g).foldl setPoint s.g.rows) i j := by
          unfold cellAt
          rw [List.getD_eq_getElem _ _ h1, List.getD_eq_getElem _ _ hj1]
        rw [hcell, cellAt_tickApply s.g hwf i j hiR hjC]
        unfold snapshotStepSpec
        simp only [List.getElem_map, List.getElem_range]
  refine ⟨hmain, ?_⟩
  rw [tick_eq s]
  show Grid.maintainMargin
      { s.g with rows := (tickTransitions s.g).foldl setPoint s.g.rows } _ = _
  rw [hmain]

/-- Claim C8: every tick makes exactly one applyPoints call, on the whole
collected transition list at once, whose trim flag is truthy exactly when
the pre-increment tickCount is a positive multiple of 5 — so ticks with
tickCount 0 or tickCount not divisible by 5 never shrink — and then
increments tickCount by exactly one. -/
theorem C8_tick_applyPoints_once (s : Game) :
    (tick s).g = s.g.applyPoints (tickTransitions s.g)
      (decide (0 < s.tickCount ∧ s.tickCount % 5 = 0)) ∧
    (tick s).tickCount = s.tickCount + 1 ∧
    (((s.tickCount != 0) && (s.tickCount % 5 == 0)) = true ↔
      0 < s.tickCount ∧ s.tickCount % 5 = 0) := by
  have hflag : ((s.tickCount != 0) && (s.tickCount % 5 == 0)) =
      decide (0 < s.tickCount ∧ s.tickCount % 5 = 0) := by
    rw [Bool.eq_iff_iff]
    simp only [Bool.and_eq_true, bne_iff_ne, beq_iff_eq, decide_eq_true_eq]
    omega
  have h1 : (tick s).g = s.g.applyPoints (tickTransitions s.g)
      ((s.tickCount != 0) && (s.tickCount % 5 == 0)) := by
    rw [tick_eq s]
  have h2 : (tick s).tickCount = s.tickCount + 1 := by
    rw [tick_eq s]
  refine ⟨by rw [h1, hflag], h2, ?_⟩
  rw [hflag]
  exact decide_eq_true_iff

theorem cellAt_replicate_dead (R C r c : Nat) :
    cellAt (List.replicate R (List.replicate C false)) r c = false := by
  rw [cellAt_eq_getElem, List.getElem?_replicate]
  split
  · simp only [Option.getD_some]
    rw [List.getElem?_replicate]
    split <;> rfl
  · rfl

/-- Claim C7: Grid construction raises exactly when the grid type is not
"inf", some margin is below 1, or a dimension is smaller than the sum of
its two opposing margins (rows versus north+south, columns versus
east+west); when it succeeds, the constructed grid is the requested
rowCount x colCount array with every cell dead and the margins stored
as given. -/
theorem C7_init_validation (gridType : String) (extent : Int × Int)
    (margins : Int × Int × Int × Int) :
    ((∃ e, Grid.init gridType extent margins = .error e) ↔
      (gridType ≠ "inf" ∨ margins.1 < 1 ∨ margins.2.1 < 1 ∨ margins.2.2.1 < 1 ∨
        margins.2.2.2 < 1 ∨ extent.1 < margins.1 + margins.2.2.1 ∨
        extent.2 < margins.2.1 + margins.2.2.2)) ∧
    (∀ g, Grid.init gridType extent margins = .ok g →
      g.rows = List.replicate extent.1.toNat (List.replicate extent.2.toNat false) ∧
      g.extentR = extent.1.toNat ∧ g.extentC = extent.2.toNat ∧
      (∀ r c : Nat, cellAt g.rows r c = false) ∧
      g.marginN = margins.1 ∧ g.marginE = margins.2.1 ∧
      g.marginS = margins.2.2.1 ∧ g.marginW = margins.2.2.2) := by
  unfold Grid.init
  by_cases h1 : gridType ≠ "inf"
  · rw [if_pos h1]
    constructor
    · constructor
      · intro _
        exact Or.inl h1
      · intro _
        exact ⟨_, rfl⟩
    · intro g hg
      exact absurd hg (by simp)
  · rw [if_neg h1]
    by_cases h2 : margins.1 < 1 ∨ margins.2.1 < 1 ∨ margins.2.2.1 < 1 ∨ margins.2.2.2 < 1
    · rw [if_pos h2]
      constructor
      · constructor
        · intro _
          rcases h2 with hm | hm | hm | hm
          · exact .inr (.inl hm)
          · exact .inr (.inr (.inl hm))
          · exact .inr (.inr (.inr (.inl hm)))
          · exact .inr (.inr (.inr (.inr (.inl hm))))
        · intro _
          exact ⟨_, rfl⟩
      · intro g hg
        exact absurd hg (by simp)
    · rw [if_neg h2]
      by_cases h3 : extent.1 < margins.1 + margins.2.2.1 ∨
          extent.2 < margins.2.1 + margins.2.2.2
      · rw [if_pos h3]
        constructor
        · constructor
          · intro _
            rcases h3 with h | h
            · exact Or.inr (Or.inr (Or.inr (Or.inr (Or.inr (Or.inl h)))))
            · exact Or.inr (Or.inr (Or.inr (Or.inr (Or.inr (Or.inr h)))))
          · intro _
            exact ⟨_, rfl⟩
        · intro g hg
          exact absurd hg (by simp)
      · rw [if_neg h3]
        constructor
        · constructor
          · rintro ⟨e, he⟩
            exact absurd he (by simp)
          · intro hcon
            push_neg at h1 h2 h3
            rcases hcon with h | h | h | h | h | h | h
            · exact absurd h1 h
            · exact absurd h (by omega)
            · exact absurd h (by omega)
            · exact absurd h (by omega)
            · exact absurd h (by omega)
            · exact absurd h (by omega)
            · exact absurd h (by omega)
        · intro g hg
          injection hg with hge
          subst hge
          refine ⟨rfl, rfl, rfl, ?_, rfl, rfl, rfl, rfl⟩
          intro r c
          exact cellAt_replicate_dead _ _ r c

/-- A 3-by-3 grid with margins 1 whose only live cell is the center: it
respects the margin discipline (no live cell on any edge), yet a lookup
with a negative row index wraps around. -/
def centerLiveGrid : Grid :=
  { rows := [[false, false, false], [false, true, false], [false, false, false]]
    extentR := 3, extentC := 3
    marginN := 1, marginE := 1, marginS := 1, marginW := 1 }

/-- Claim C4, failing input: getCell(-2, 1) on `centerLiveGrid` returns
the live center cell through Python negative-index wraparound
(`rows[-2]` is row 1), not a dead cell, although (-2, 1) lies outside
[0, rowCount) x [0, colCount); far-out-of-range indices do raise and
yield the dead cell as documented. -/
theorem C4_negative_index_wraparound :
    centerLiveGrid.getCell (-2) 1 = true ∧
    centerLiveGrid.getCell (-4) 1 = false ∧
    centerLiveGrid.getCell 3 1 = false ∧
    centerLiveGrid.getCell 1 (-2) = true := by
  refine ⟨by decide, by decide, by decide, by decide⟩

/-- Claim C5, counterexample: "X.." yields a point for every character —
including the two dead ones — and its extent is taken over all points, so
it is (0, 2) although the only live point has column 0; likewise the
all-dead pattern "..." yields a non-empty point list and extent (0, 2)
rather than an empty set with extent (0, 0). -/
theorem C5_counterexample :
    patternPoints "X.." =
      [{ row := 0, col := 0, alive := true }, { row := 0, col := 1, alive := false },
        { row := 0, col := 2, alive := false }] ∧
    patternExtent (patternPoints "X..") = (0, 2) ∧
    patternPoints "..." ≠ [] ∧
    patternExtent (patternPoints "...") = (0, 2) := by
  refine ⟨by decide, by decide, by decide, by decide⟩

theorem foldl_pair_max_eq (ps : List GridPoint) :
    ∀ a b : Int,
      ps.foldl (fun acc p => (max acc.1 p.row, max acc.2 p.col)) (a, b) =
        (ps.foldl (fun m p => max m p.row) a, ps.foldl (fun m p => max m p.col) b) := by
  induction ps with
  | nil => intro a b; rfl
  | cons p ps ih =>
    intro a b
    rw [List.foldl_cons, List.foldl_cons, List.foldl_cons]
    exact ih (max a p.row) (max b p.col)

theorem foldl_max_spec (f : GridPoint → Int) (ps : List GridPoint) :
    ∀ init : Int,
      init ≤ ps.foldl (fun m p => max m (f p)) init ∧
      (∀ p ∈ ps, f p ≤ ps.foldl (fun m p => max m (f p)) init) ∧
      (ps.foldl (fun m p => max m (f p)) init = init ∨
        ∃ p ∈ ps, f p = ps.foldl (fun m p => max m (f p)) init) := by
  induction ps with
  | nil =>
    intro init
    exact ⟨le_rfl, fun p hp => absurd hp (List.not_mem_nil p), Or.inl rfl⟩
  | cons p ps ih =>
    intro init
    rw [List.foldl_cons]
    obtain ⟨hle, hbound, hattain⟩ := ih (max init (f p))
    refine ⟨le_trans (le_max_left init (f p)) hle, ?_, ?_⟩
    · intro q hq
      rcases List.mem_cons.mp hq with rfl | hq
      · exact le_trans (le_max_right init (f q)) hle
      · exact hbound q hq
    · rcases hattain with heq | ⟨q, hq, hfq⟩
      · rcases max_choice init (f p) with hmax | hmax
        · left
          rw [hmax] at heq ⊢
          exact heq
        · right
          refine ⟨p, List.mem_cons_self p ps, ?_⟩
          rw [hmax] at heq ⊢
          exact heq.symm
      · exact Or.inr ⟨q, List.mem_cons_of_mem p hq, hfq⟩

/-- Claim C5 (amended): Pattern produces one point per character of every
row segment — live for a live character, dead for a dot or space — rather
than only for live characters; getExtent returns the maximum row and
column index over all points, dead ones included, 0 when there are none,
and the maxima are attained by points of the list; the empty pattern
yields an empty point list with extent (0, 0), but an all-dead non-empty
pattern yields dead points and the extent of its character rectangle. -/
theorem C5_pattern_amended (s : String) :
    (∀ p : GridPoint, p ∈ patternPoints s ↔
      ∃ rn, rn < (splitSlash (stripSlash s.data)).length ∧
      ∃ cn, cn < ((splitSlash (stripSlash s.data)).getD rn []).length ∧
        p = { row := (rn : Int), col := (cn : Int)
              alive := fromChar
                (((splitSlash (stripSlash s.data)).getD rn []).getD cn ' ') }) ∧
    (∀ p ∈ patternPoints s,
      p.row ≤ (patternExtent (patternPoints s)).1 ∧
      p.col ≤ (patternExtent (patternPoints s)).2) ∧
    ((patternExtent (patternPoints s)).1 = 0 ∨
      ∃ p ∈ patternPoints s, p.row = (patternExtent (patternPoints s)).1) ∧
    ((patternExtent (patternPoints s)).2 = 0 ∨
      ∃ p ∈ patternPoints s, p.col = (patternExtent (patternPoints s)).2) ∧
    patternPoints "" = [] ∧ patternExtent (patternPoints "") = (0, 0) := by
  have hext : patternExtent (patternPoints s) =
      ((patternPoints s).foldl (fun m p => max m p.row) 0,
        (patternPoints s).foldl (fun m p => max m p.col) 0) := by
    unfold patternExtent
    exact foldl_pair_max_eq (patternPoints s) 0 0
  obtain ⟨hrow_le, hrow_bound, hrow_attain⟩ := foldl_max_spec (fun p => p.row)
    (patternPoints s) 0
  obtain ⟨hcol_le, hcol_bound, hcol_attain⟩ := foldl_max_spec (fun p => p.col)
    (patternPoints s) 0
  refine ⟨?_, ?_, ?_, ?_, by decide, by decide⟩
  · intro p
    unfold patternPoints
    rw [List.mem_flatMap]
    constructor
    · rintro ⟨rn, hrn, hmem⟩
      unfold rowPoints at hmem
      rw [List.mem_map] at hmem
      obtain ⟨cn, hcn, hp⟩ := hmem
      exact ⟨rn, List.mem_range.mp hrn, cn, List.mem_range.mp hcn, hp.symm⟩
    · rintro ⟨rn, hrn, cn, hcn, hp⟩
      refine ⟨rn, List.mem_range.mpr hrn, ?_⟩
      unfold rowPoints
      rw [List.mem_map]
      exact ⟨cn, List.mem_range.mpr hcn, hp.symm⟩
  · intro p hp
    rw [hext]
    exact ⟨hrow_bound p hp, hcol_bound p hp⟩
  · rw [hext]
    exact hrow_attain
  · rw [hext]
    exact hcol_attain

theorem dropWhile_append_single {α : Type} (p : α → Bool) (c : α) (hc : p c = true) :
    ∀ l : List α, (l ++ [c]).dropWhile p =
      if (l.dropWhile p).isEmpty then [] else l.dropWhile p ++ [c] := by
  intro l
  induction l with
  | nil =>
    simp [List.dropWhile, hc]
  | cons a l ih =>
    rw [List.cons_append, List.dropWhile_cons, List.dropWhile_cons]
    by_cases ha : p a = true
    · rw [if_pos ha, if_pos ha, ih]
    · rw [if_neg ha, if_neg ha]
      simp

theorem stripSlash_cons (l : List Char) : stripSlash ('/' :: l) = stripSlash l := by
  unfold stripSlash
  rw [List.dropWhile_cons, if_pos (by decide)]

theorem stripSlash_concat (l : List Char) : stripSlash (l ++ ['/']) = stripSlash l := by
  unfold stripSlash
  rw [dropWhile_append_single (fun ch => decide (ch = '/')) '/' (by decide) l]
  by_cases hempty : (l.dropWhile (fun ch => decide (ch = '/'))).isEmpty
  · rw [if_pos hempty, List.isEmpty_iff.mp hempty]
  · rw [if_neg hempty, List.reverse_append]
    simp only [List.reverse_cons, List.reverse_nil, List.nil_append, List.singleton_append]
    rw [List.dropWhile_cons, if_pos (by decide)]

/-- Claim C10: Pattern parsing strips every leading and trailing slash
before splitting, so prepending or appending a '/' to a notation string
never changes the parsed point list. -/
theorem C10_slash_insensitive (s : String) :
    patternPoints ("/" ++ s) = patternPoints s ∧
    patternPoints (s ++ "/") = patternPoints s := by
  constructor
  · unfold patternPoints
    have hdata : ("/" ++ s).data = '/' :: s.data := by
      rw [String.data_append]
      rfl
    rw [hdata, stripSlash_cons]
  · unfold patternPoints
    have hdata : (s ++ "/").data = s.data ++ ['/'] := by
      rw [String.data_append]
    rw [hdata, stripSlash_concat]

instance (g : Grid) : Decidable g.wf := by
  unfold Grid.wf
  infer_instance

instance (g : Grid) : Decidable g.okMargins := by
  unfold Grid.okMargins
  infer_instance

theorem C1_transition_rules_witness :
    Grid.wf centerLiveGrid ∧ 1 < centerLiveGrid.extentR ∧ 1 < centerLiveGrid.extentC ∧
    ((({ row := (1 : Int), col := (1 : Int), alive := false } : GridPoint) ∈
        tickTransitions centerLiveGrid ↔
      centerLiveGrid.isCellAlive 1 1 = true ∧
        ¬ (2 ≤ centerLiveGrid.countNeighborsCell 1 1 ∧
          centerLiveGrid.countNeighborsCell 1 1 ≤ 3)) ∧
    (({ row := (1 : Int), col := (1 : Int), alive := true } : GridPoint) ∈
        tickTransitions centerLiveGrid ↔
      centerLiveGrid.isCellAlive 1 1 = false ∧
        centerLiveGrid.countNeighborsCell 1 1 = 3) ∧
    (∀ b : Bool,
      ({ row := (1 : Int), col := (1 : Int), alive := b } : GridPoint) ∈
          tickTransitions centerLiveGrid →
        (b = false ∧ centerLiveGrid.isCellAlive 1 1 = true ∧
          ¬ (2 ≤ centerLiveGrid.countNeighborsCell 1 1 ∧
            centerLiveGrid.countNeighborsCell 1 1 ≤ 3)) ∨
        (b = true ∧ centerLiveGrid.isCellAlive 1 1 = false ∧
          centerLiveGrid.countNeighborsCell 1 1 = 3)) ∧
    cellAt ((tickTransitions centerLiveGrid).foldl setPoint centerLiveGrid.rows) 1 1 =
      golRule (centerLiveGrid.isCellAlive 1 1) (centerLiveGrid.countNeighborsCell 1 1) ∧
    ((centerLiveGrid.rowIsDead (centerLiveGrid.extentR - 1) = true ∧
        centerLiveGrid.colIsDead (centerLiveGrid.extentC - 1) = true) →
      centerLiveGrid.countNeighborsCell 1 1 = mooreCount centerLiveGrid 1 1)) :=
  ⟨by decide, by decide, by decide,
    C1_transition_rules centerLiveGrid (by decide) 1 1 (by decide) (by decide)⟩

theorem C2_snapshot_semantics_witness :
    Grid.wf centerLiveGrid ∧
    ((tickTransitions centerLiveGrid).foldl setPoint centerLiveGrid.rows =
        snapshotStepSpec centerLiveGrid ∧
      (tick { g := centerLiveGrid, tickCount := 0 }).g = Grid.maintainMargin
        { centerLiveGrid with rows := snapshotStepSpec centerLiveGrid }
        ((((0 : Nat)) != 0) && (((0 : Nat)) % 5 == 0))) :=
  ⟨by decide, C2_snapshot_semantics { g := centerLiveGrid, tickCount := 0 } (by decide)⟩

theorem C3_margin_invariant_witness :
    Grid.wf allDeadGrid ∧ Grid.okMargins allDeadGrid ∧
    ((∀ r c : Nat,
      cellAt (allDeadGrid.applyPoints [{ row := 1, col := 1, alive := true }] true).rows
          r c = true →
      allDeadGrid.marginN ≤ (r : Int) ∧
      (r : Int) + allDeadGrid.marginS <
        ((allDeadGrid.applyPoints [{ row := 1, col := 1, alive := true }] true).extentR : Int) ∧
      allDeadGrid.marginW ≤ (c : Int) ∧
      (c : Int) + allDeadGrid.marginE <
        ((allDeadGrid.applyPoints [{ row := 1, col := 1, alive := true }] true).extentC : Int) ∧
      0 < r ∧ (r : Int) + 1 <
        ((allDeadGrid.applyPoints [{ row := 1, col := 1, alive := true }] true).extentR : Int) ∧
      0 < c ∧ (c : Int) + 1 <
        ((allDeadGrid.applyPoints [{ row := 1, col := 1, alive := true }] true).extentC : Int)) ∧
    (true = true →
      (∃ ra ca : Nat,
        cellAt ([({ row := 1, col := 1, alive := true } : GridPoint)].foldl setPoint
          allDeadGrid.rows) ra ca = true) →
      (∃ r c : Nat,
        cellAt (allDeadGrid.applyPoints [{ row := 1, col := 1, alive := true }] true).rows
            r c = true ∧
          (r : Int) = allDeadGrid.marginN) ∧
      (∃ r c : Nat,
        cellAt (allDeadGrid.applyPoints [{ row := 1, col := 1, alive := true }] true).rows
            r c = true ∧
          (r : Int) = ((allDeadGrid.applyPoints [{ row := 1, col := 1, alive := true }]
            true).extentR : Int) - 1 - allDeadGrid.marginS) ∧
      (∃ r c : Nat,
        cellAt (allDeadGrid.applyPoints [{ row := 1, col := 1, alive := true }] true).rows
            r c = true ∧
          (c : Int) = allDeadGrid.marginW) ∧
      (∃ r c : Nat,
        cellAt (allDeadGrid.applyPoints [{ row := 1, col := 1, alive := true }] true).rows
            r c = true ∧
          (c : Int) = ((allDeadGrid.applyPoints [{ row := 1, col := 1, alive := true }]
            true).extentC : Int) - 1 - allDeadGrid.marginE))) :=
  ⟨by decide, by decide,
    C3_margin_invariant allDeadGrid [{ row := 1, col := 1, alive := true }] true
      (by decide) (by decide)⟩

theorem C6_allDead_amended_witness :
    Grid.wf allDeadGrid ∧ Grid.okMargins allDeadGrid ∧
    (∀ r c : Nat, cellAt allDeadGrid.rows r c = false) ∧
    allDeadGrid.marginN + allDeadGrid.marginS ≤ (allDeadGrid.extentR : Int) ∧
    allDeadGrid.marginE + allDeadGrid.marginW ≤ (allDeadGrid.extentC : Int) ∧
    ((∀ r c : Nat, cellAt (allDeadGrid.maintainMargin false).rows r c = false) ∧
      ((allDeadGrid.maintainMargin false).extentR : Int) =
        (if false then allDeadGrid.marginN + allDeadGrid.marginS
         else (allDeadGrid.extentR : Int) + allDeadGrid.marginS) ∧
      ((allDeadGrid.maintainMargin false).extentC : Int) =
        (if false then allDeadGrid.marginW + allDeadGrid.marginE
         else (allDeadGrid.extentC : Int) + allDeadGrid.marginE)) := by
  have hdead : ∀ r c : Nat, cellAt allDeadGrid.rows r c = false := by
    intro r c
    match r, c with
    | 0, 0 => rfl
    | 0, 1 => rfl
    | 0, c + 2 => rfl
    | 1, 0 => rfl
    | 1, 1 => rfl
    | 1, c + 2 => rfl
    | r + 2, c => rfl
  exact ⟨by decide, by decide, hdead, by decide, by decide,
    C6_allDead_amended allDeadGrid false (by decide) (by decide) hdead
      (by decide) (by decide)⟩

end ChargepointDemo
